import Mathlib

/-!
Verification development for the KeystoneEndpoint reconciliation controller
(`controllers/keystoneendpoint_controller.go`).

The Go controller is shallowly embedded as pure Lean functions:

* Go `map[string]string` values (`Spec.Endpoints`, `Status.EndpointIDs`) are
  modelled as association lists `List (String × String)`.  The list order is
  the (arbitrary) iteration order of a Go `range` over the map; map lookups,
  deletions and insertions are the usual association-list operations.  Go
  maps always have distinct keys, which theorems assume as `Nodup`
  hypotheses where relevant.
* The OpenStack admin client (`os.GetEndpoints` / `CreateEndpoint` /
  `UpdateEndpoint` / `DeleteEndpoint`) is an external collaborator and is
  modelled as a record of pure fallible functions; every invocation is
  recorded in a call log together with the endpoint type being processed.
* `openstack.GetAvailability` is an external lookup and is a parameter
  `avail : String → Except String String`.
* Errors (`error` returns in Go) are `Option String` / `Except String`.
-/

/-- A record in the remote identity-service endpoint registry
(gophercloud endpoint as returned by `os.GetEndpoints`). -/
structure RemoteEndpoint where
  id : String
  name : String
  serviceID : String
  availability : String
  url : String
deriving DecidableEq

/-- The `openstack.Endpoint` argument structure passed to the client calls.
Fields not set at a call site are the Go zero value `""`. -/
structure OSEndpoint where
  name : String
  serviceID : String
  availability : String
  url : String
deriving DecidableEq

/-- One invocation of the remote endpoint client, with the arguments the Go
code passes. -/
inductive RemoteCall where
  | getEndpoints (serviceID endpointType : String)
  | createEndpoint (ep : OSEndpoint)
  | updateEndpoint (ep : OSEndpoint) (id : String)
  | deleteEndpoint (ep : OSEndpoint)
deriving DecidableEq

/-- A remote call tagged with the endpoint type the sync engine was
processing when it issued the call (bookkeeping; the tag is determined by
the call site). -/
structure LoggedCall where
  endpointType : String
  call : RemoteCall
deriving DecidableEq

/-- `true` for the create/update/delete calls, `false` for the read-only
`getEndpoints` query. -/
def RemoteCall.isMutating : RemoteCall → Bool
  | .getEndpoints _ _ => false
  | _ => true

/-- `true` exactly for `deleteEndpoint` calls. -/
def RemoteCall.isDelete : RemoteCall → Bool
  | .deleteEndpoint _ => true
  | _ => false

/-- `true` exactly for `createEndpoint`/`updateEndpoint` calls. -/
def RemoteCall.isCreateOrUpdate : RemoteCall → Bool
  | .createEndpoint _ => true
  | .updateEndpoint _ _ => true
  | _ => false

/-- The remote endpoint client boundary (the `*openstack.OpenStack` admin
client): pure, fallible versions of the four operations used by the
controller. -/
structure OSClient where
  getEndpoints : String → String → Except String (List RemoteEndpoint)
  createEndpoint : OSEndpoint → Except String String
  updateEndpoint : OSEndpoint → String → Except String String
  deleteEndpoint : OSEndpoint → Except String Unit

/-- Condition status (`corev1.ConditionStatus`). -/
inductive CondStatus where
  | ctrue
  | cfalse
  | cunknown
deriving DecidableEq

/-- Condition severity (lib-common `condition.Severity`). -/
inductive Severity where
  | error
  | warning
  | info
  | nosev
deriving DecidableEq

/-- A status condition `{Type, Status, Reason, Severity, Message}`. -/
structure Condition where
  type : String
  status : CondStatus
  reason : String
  severity : Severity
  message : String
deriving DecidableEq

/-- `keystonev1.Endpoint`, the `{Interface, URL, ID}` record mirrored into
`Status.Endpoints`. -/
structure Endpoint where
  interface : String
  url : String
  id : String
deriving DecidableEq

/-- `KeystoneEndpointStatus`.  A Go `nil` conditions slice is modelled as
the empty list (the controller only distinguishes nil from non-nil before
initializing the list to four entries, so empty ≡ nil behaviourally). -/
structure EndpointStatus where
  serviceID : String
  endpointIDs : List (String × String)
  endpoints : List Endpoint
  conditions : List Condition
  observedGeneration : Int
deriving DecidableEq

/-- The KeystoneEndpoint custom resource: metadata the controller reads
(name, generation, deletion timestamp as `terminating`, finalizer list),
the spec (`ServiceName`, `Endpoints` map) and the status. -/
structure KeystoneEndpoint where
  name : String
  generation : Int
  terminating : Bool
  finalizers : List String
  serviceName : String
  specEndpoints : List (String × String)
  status : EndpointStatus
deriving DecidableEq

/-! ### Association-list operations modelling Go map primitives -/

/-- Go map lookup `v, ok := m[k]`. -/
def lookupKey (k : String) : List (String × String) → Option String
  | [] => none
  | (k', v) :: rest => if k' = k then some v else lookupKey k rest

/-- Go map deletion `delete(m, k)`. -/
def eraseKey (k : String) : List (String × String) → List (String × String)
  | [] => []
  | (k', v) :: rest => if k' = k then rest else (k', v) :: eraseKey k rest

/-- Go map insertion `m[k] = v`. -/
def upsertKey (k v : String) : List (String × String) → List (String × String)
  | [] => [(k, v)]
  | (k', v') :: rest => if k' = k then (k, v) :: rest else (k', v') :: upsertKey k v rest

/-- The keys of an association list. -/
def keysOf (m : List (String × String)) : List String :=
  m.map Prod.fst

/-! ### The endpoint sync engine (`reconcileEndpoints`) -/

/-- `getEndpointIdx` — index of the first `Endpoints` entry whose
`Interface` equals `endpointType`, `-1` if absent (`slices.IndexFunc`). -/
def getEndpointIdx (endpointType : String) : List Endpoint → Int
  | [] => -1
  | e :: rest =>
    if e.interface = endpointType then 0
    else
      let idx := getEndpointIdx endpointType rest
      if idx ≥ 0 then idx + 1 else -1

/-- `Endpoints[idx].ID = id; Endpoints[idx].URL = url` — update the record
at a position in place, keeping its `Interface`. -/
def setEndpointURLID : List Endpoint → Nat → String → String → List Endpoint
  | [], _, _, _ => []
  | e :: rest, 0, url, id => { e with url := url, id := id } :: rest
  | e :: rest, n + 1, url, id => e :: setEndpointURLID rest n url id

/-- Lines 487–491: look up the `Endpoints` entry for a type and remove it
if present. -/
def removeEndpointEntry (endpointType : String) (es : List Endpoint) : List Endpoint :=
  let idx := getEndpointIdx endpointType es
  if idx ≥ 0 then es.eraseIdx idx.toNat else es

/-- Lines 562–573: update the `Endpoints` entry for a type in place if
present, else append a fresh record. -/
def upsertEndpointEntry (endpointType endpointURL endpointID : String)
    (es : List Endpoint) : List Endpoint :=
  let idx := getEndpointIdx endpointType es
  if idx ≥ 0 then setEndpointURLID es idx.toNat endpointURL endpointID
  else es ++ [{ interface := endpointType, url := endpointURL, id := endpointID }]

/-- Result of a sync-engine run: the mutated status (partial mutations are
kept on error, as the deferred status patch persists them), the call log,
and the returned error. -/
structure SyncResult where
  status : EndpointStatus
  calls : List LoggedCall
  err : Option String
deriving DecidableEq

/-- The status-mutation block at the end of one converge iteration
(`if endpointID != "" { ... }`, lines 557–574). -/
def applyEndpointStatus (specEndpoints : List (String × String))
    (endpointType endpointURL endpointID : String) (st : EndpointStatus) : EndpointStatus :=
  if endpointID = "" then st
  else
    let st :=
      if (lookupKey endpointType specEndpoints).isSome then
        { st with endpointIDs := upsertKey endpointType endpointID st.endpointIDs }
      else st
    { st with endpoints := upsertEndpointEntry endpointType endpointURL endpointID st.endpoints }

/-- The retire pass (lines 462–494): for each recorded `EndpointIDs` key
(in map-iteration order) that is absent from `Spec.Endpoints`, resolve
availability, issue a remote delete, and drop the type from
`EndpointIDs`/`Endpoints`. -/
def retireLoop (avail : String → Except String String) (client : OSClient)
    (serviceName : String) (specEndpoints : List (String × String)) :
    List (String × String) → EndpointStatus → List LoggedCall → SyncResult
  | [], st, calls => ⟨st, calls, none⟩
  | (endpointType, _) :: rest, st, calls =>
    if (lookupKey endpointType specEndpoints).isSome then
      retireLoop avail client serviceName specEndpoints rest st calls
    else
      match avail endpointType with
      | .error e => ⟨st, calls, some e⟩
      | .ok availability =>
        let ep : OSEndpoint :=
          { name := serviceName, serviceID := st.serviceID,
            availability := availability, url := "" }
        let calls := calls ++ [⟨endpointType, RemoteCall.deleteEndpoint ep⟩]
        match client.deleteEndpoint ep with
        | .error e => ⟨st, calls, some e⟩
        | .ok _ =>
          let st :=
            { st with
              endpointIDs := eraseKey endpointType st.endpointIDs,
              endpoints := removeEndpointEntry endpointType st.endpoints }
          retireLoop avail client serviceName specEndpoints rest st calls

/-- One iteration of the converge pass (lines 497–575) for a single
`(endpointType, endpointURL)` spec entry. -/
def convergeStep (avail : String → Except String String) (client : OSClient)
    (serviceName : String) (specEndpoints : List (String × String))
    (endpointType endpointURL : String) (st : EndpointStatus) : SyncResult :=
  match avail endpointType with
  | .error e => ⟨st, [], some e⟩
  | .ok availability =>
    let calls := [⟨endpointType, RemoteCall.getEndpoints st.serviceID endpointType⟩]
    match client.getEndpoints st.serviceID endpointType with
    | .error e => ⟨st, calls, some e⟩
    | .ok allEndpoints =>
      match allEndpoints with
      | [] =>
        let ep : OSEndpoint :=
          { name := serviceName, serviceID := st.serviceID,
            availability := availability, url := endpointURL }
        let calls := calls ++ [⟨endpointType, RemoteCall.createEndpoint ep⟩]
        match client.createEndpoint ep with
        | .error e => ⟨st, calls, some e⟩
        | .ok endpointID =>
          ⟨applyEndpointStatus specEndpoints endpointType endpointURL endpointID st, calls, none⟩
      | [endpoint] =>
        if endpointURL ≠ endpoint.url then
          let ep : OSEndpoint :=
            { name := endpoint.name, serviceID := endpoint.serviceID,
              availability := availability, url := endpointURL }
          let calls := calls ++ [⟨endpointType, RemoteCall.updateEndpoint ep endpoint.id⟩]
          match client.updateEndpoint ep endpoint.id with
          | .error e => ⟨st, calls, some e⟩
          | .ok endpointID =>
            ⟨applyEndpointStatus specEndpoints endpointType endpointURL endpointID st, calls, none⟩
        else
          ⟨applyEndpointStatus specEndpoints endpointType endpointURL endpoint.id st, calls, none⟩
      | _ :: _ :: _ =>
        ⟨st, calls,
          some ("multiple endpoints registered for service:" ++ serviceName ++
            " type: " ++ endpointType)⟩

/-- The converge pass: iterate `Spec.Endpoints` in map-iteration order,
stopping at the first error. -/
def convergeLoop (avail : String → Except String String) (client : OSClient)
    (serviceName : String) (specEndpoints : List (String × String)) :
    List (String × String) → EndpointStatus → List LoggedCall → SyncResult
  | [], st, calls => ⟨st, calls, none⟩
  | (endpointType, endpointURL) :: rest, st, calls =>
    let r := convergeStep avail client serviceName specEndpoints endpointType endpointURL st
    match r.err with
    | some e => ⟨r.status, calls ++ r.calls, some e⟩
    | none => convergeLoop avail client serviceName specEndpoints rest r.status (calls ++ r.calls)

/-- `reconcileEndpoints` (lines 454–580): the retire pass over the recorded
`EndpointIDs`, then (if it succeeded) the converge pass over
`Spec.Endpoints`. -/
def reconcileEndpoints (avail : String → Except String String) (client : OSClient)
    (serviceName : String) (specEndpoints : List (String × String))
    (st : EndpointStatus) : SyncResult :=
  let r := retireLoop avail client serviceName specEndpoints st.endpointIDs st []
  match r.err with
  | some _ => r
  | none => convergeLoop avail client serviceName specEndpoints specEndpoints r.status r.calls

/-! ### Conditions and the status/condition aggregator

The condition helpers (`Conditions.Set`, `MarkTrue`, `MarkUnknown`,
`AllSubConditionIsTrue`, `Mirror`) live in the external lib-common module;
only their call sites are in this repository.  They are modelled from the
spec (§3 Condition invariant, §4.1 readiness aggregation, §9 design
notes). -/

def readyCond : String := "Ready"

def keystoneAPIReadyCond : String := "KeystoneAPIReady"

def adminServiceClientReadyCond : String := "AdminServiceClientReady"

def osEndpointsReadyCond : String := "KeystoneServiceOSEndpointsReady"

def keystoneServiceReadyCond : String := "KeystoneServiceReady"

def initReason : String := "Init"

def readyReason : String := "Ready"

def errorReason : String := "Error"

def requestedReason : String := "Requested"

def readyMessage : String := "Setup complete"

def readyInitMessage : String := "Setup started"

def keystoneAPIReadyInitMessage : String := "KeystoneAPI not started"

def keystoneAPIReadyNotFoundMessage : String := "KeystoneAPI not found"

def keystoneAPIReadyWaitingMessage : String := "KeystoneAPI not yet ready"

def keystoneAPIReadyErrorMessage : String := "KeystoneAPI error occurred "

def keystoneAPIReadyMessage : String := "KeystoneAPI ready"

def adminServiceClientReadyInitMessage : String := "AdminServiceClient not started"

def adminServiceClientReadyErrorMessage : String := "AdminServiceClient error occurred "

def adminServiceClientReadyWaitingMessage : String := "AdminServiceClient not yet ready"

def adminServiceClientReadyMessage : String := "AdminServiceClient ready"

def osEndpointsReadyInitMessage : String := "KeystoneServiceOSEndpoints not started"

def osEndpointsReadyErrorMessage : String := "KeystoneServiceOSEndpoints error occurred "

def osEndpointsReadyMessage : String := "KeystoneServiceOSEndpoints ready"

/-- Modelled from the spec: lib-common `Conditions.Set` — upsert a
condition into the collection, keyed by `Type` (exactly one condition per
declared type). -/
def setCondition (c : Condition) : List Condition → List Condition
  | [] => [c]
  | c0 :: rest => if c0.type = c.type then c :: rest else c0 :: setCondition c rest

/-- `Conditions.Set` applied to a possibly-nil condition pointer
(`Set(nil)` is a no-op). -/
def setConditionOpt (c : Option Condition) (cs : List Condition) : List Condition :=
  match c with
  | some c => setCondition c cs
  | none => cs

/-- Modelled from the spec: lib-common `FalseCondition`. -/
def falseCondition (t reason : String) (sev : Severity) (msg : String) : Condition :=
  { type := t, status := .cfalse, reason := reason, severity := sev, message := msg }

/-- Modelled from the spec: lib-common `UnknownCondition`. -/
def unknownCondition (t reason msg : String) : Condition :=
  { type := t, status := .cunknown, reason := reason, severity := .nosev, message := msg }

/-- Modelled from the spec: lib-common `TrueCondition`. -/
def trueCondition (t msg : String) : Condition :=
  { type := t, status := .ctrue, reason := readyReason, severity := .nosev, message := msg }

/-- Modelled from the spec: lib-common `Conditions.MarkTrue`. -/
def markTrue (t msg : String) (cs : List Condition) : List Condition :=
  setCondition (trueCondition t msg) cs

/-- Modelled from the spec: lib-common `Conditions.MarkUnknown`. -/
def markUnknown (t reason msg : String) (cs : List Condition) : List Condition :=
  setCondition (unknownCondition t reason msg) cs

/-- Modelled from the spec: lib-common `Conditions.AllSubConditionIsTrue` —
every condition other than the aggregate `Ready` condition has status
`True`. -/
def allSubConditionIsTrue (cs : List Condition) : Bool :=
  cs.all fun c => decide (c.type = readyCond) || decide (c.status = CondStatus.ctrue)

/-- Modelled from the spec: lib-common `Conditions.Mirror(target)` —
returns a copy (with `Type` replaced by `target`) of the most relevant
condition among the sub-conditions: the worst/most-informative non-true
one (a false condition of error severity, else any false condition, else
an unknown condition), falling back to the first sub-condition when all
are true. -/
def mirrorCondition (target : String) (cs : List Condition) : Option Condition :=
  let subs := cs.filter fun c => decide (c.type ≠ readyCond)
  let pick : Option Condition :=
    match subs.find? (fun c =>
        decide (c.status = CondStatus.cfalse) && decide (c.severity = Severity.error)) with
    | some c => some c
    | none =>
      match subs.find? (fun c => decide (c.status = CondStatus.cfalse)) with
      | some c => some c
      | none =>
        match subs.find? (fun c => decide (c.status = CondStatus.cunknown)) with
        | some c => some c
        | none => subs.head?
  pick.map fun c => { c with type := target }

/-- The deferred readiness-aggregation block of `Reconcile` (lines
92–115): if every sub-condition is true mark `Ready` true, else reset
`Ready` to unknown and recompute it by mirroring. -/
def finalizeConditions (cs : List Condition) : List Condition :=
  if allSubConditionIsTrue cs then
    markTrue readyCond readyMessage cs
  else
    let cs := markUnknown readyCond initReason readyInitMessage cs
    setConditionOpt (mirrorCondition readyCond cs) cs

/-- The condition list installed on first observation (lines 120–133);
lib-common `Conditions.Init` also registers the aggregate `Ready`
condition as unknown. -/
def initConditionList : List Condition :=
  [ unknownCondition readyCond initReason readyInitMessage,
    unknownCondition keystoneAPIReadyCond initReason keystoneAPIReadyInitMessage,
    unknownCondition adminServiceClientReadyCond initReason adminServiceClientReadyInitMessage,
    unknownCondition osEndpointsReadyCond initReason osEndpointsReadyInitMessage,
    unknownCondition keystoneServiceReadyCond initReason "" ]

/-! ### Finalizers and dependency resources -/

/-- `controllerutil.AddFinalizer`: returns whether it changed the list. -/
def addFinalizer (f : String) (fins : List String) : Bool × List String :=
  if f ∈ fins then (false, fins) else (true, fins ++ [f])

/-- `controllerutil.RemoveFinalizer`: returns whether it changed the
list; removes every occurrence. -/
def removeFinalizer (f : String) (fins : List String) : Bool × List String :=
  if f ∈ fins then (true, fins.filter fun x => decide (x ≠ f)) else (false, fins)

/-- `helper.GetFinalizer()` for this controller. -/
def helperFinalizer : String := "keystoneendpoint"

/-- The per-instance marker `fmt.Sprintf("%s-%s", helper.GetFinalizer(), instance.Name)`. -/
def endpointMarker (instName : String) : String := helperFinalizer ++ "-" ++ instName

/-- The KeystoneAPI dependency resource as read by this controller. -/
structure KeystoneAPI where
  terminating : Bool
  finalizers : List String
  ready : Bool
deriving DecidableEq

/-- The KeystoneService dependency resource as read by this controller. -/
structure KeystoneService where
  finalizers : List String
  ready : Bool
  serviceID : String
  conditions : List Condition
deriving DecidableEq

/-- Outcome of fetching a dependency resource from the resource store. -/
inductive GetRes (α : Type) where
  | found : α → GetRes α
  | notFound : GetRes α
  | errored : String → GetRes α
deriving DecidableEq

/-- Outcome of `GetAdminServiceClient`: a usable client, a non-empty
requeue result (`ctrlResult`), or a hard error. -/
inductive AdminClientRes where
  | ok : AdminClientRes
  | waiting : Nat → AdminClientRes
  | errored : String → AdminClientRes
deriving DecidableEq

/-- The reconcile environment: what the resource store and the identity
service return during this pass. -/
structure Env where
  keystoneAPIRes : GetRes KeystoneAPI
  keystoneServiceRes : GetRes KeystoneService
  adminClientRes : AdminClientRes
  avail : String → Except String String
  client : OSClient

/-- The observable outcome of one reconcile pass: the patched instance,
the (possibly updated) dependency resources, the `ctrl.Result` requeue
delay (in seconds, `0` = no scheduled requeue), the returned error, and
the log of remote identity-service calls. -/
structure ReconcileOutcome where
  inst : KeystoneEndpoint
  api : GetRes KeystoneAPI
  svc : GetRes KeystoneService
  requeueAfter : Nat
  err : Option String
  calls : List LoggedCall
deriving DecidableEq

/-- Upsert a condition on the instance status. -/
def setInstCondition (c : Condition) (inst : KeystoneEndpoint) : KeystoneEndpoint :=
  { inst with status := { inst.status with conditions := setCondition c inst.status.conditions } }

/-- Mark a condition true on the instance status. -/
def markInstTrue (t msg : String) (inst : KeystoneEndpoint) : KeystoneEndpoint :=
  { inst with status := { inst.status with conditions := markTrue t msg inst.status.conditions } }

/-- The remote delete loop of `reconcileDelete` (lines 267–289): delete is
called for every type declared in `Spec.Endpoints`, regardless of
`Status.EndpointIDs`. -/
def deleteLoop (avail : String → Except String String) (client : OSClient)
    (serviceName serviceID : String) :
    List (String × String) → List LoggedCall → List LoggedCall × Option String
  | [], calls => (calls, none)
  | (endpointType, _) :: rest, calls =>
    match avail endpointType with
    | .error e => (calls, some e)
    | .ok availability =>
      let ep : OSEndpoint :=
        { name := serviceName, serviceID := serviceID,
          availability := availability, url := "" }
      let calls := calls ++ [⟨endpointType, RemoteCall.deleteEndpoint ep⟩]
      match client.deleteEndpoint ep with
      | .error e => (calls, some e)
      | .ok _ => deleteLoop avail client serviceName serviceID rest calls

/-- `reconcileDelete` (lines 255–325).  `os = none` / `api = none` model
the nil arguments of the short-circuit call sites; resource-store updates
are modelled as always succeeding. -/
def reconcileDelete (env : Env) (inst : KeystoneEndpoint)
    (os : Option OSClient) (api : Option KeystoneAPI) : ReconcileOutcome :=
  let apiOrig : GetRes KeystoneAPI :=
    match api with
    | some a => GetRes.found a
    | none => env.keystoneAPIRes
  let del : List LoggedCall × Option String :=
    match os with
    | some client =>
      deleteLoop env.avail client inst.serviceName inst.status.serviceID inst.specEndpoints []
    | none => ([], none)
  match del.2 with
  | some e =>
    ⟨inst, apiOrig, env.keystoneServiceRes, 0, some e, del.1⟩
  | none =>
    let inst := { inst with status := { inst.status with endpointIDs := [] } }
    match env.keystoneServiceRes with
    | .errored e => ⟨inst, apiOrig, env.keystoneServiceRes, 0, some e, del.1⟩
    | svcRes =>
      let svcOut : GetRes KeystoneService :=
        match svcRes with
        | .found svc =>
          .found { svc with finalizers := (removeFinalizer (endpointMarker inst.name) svc.finalizers).2 }
        | other => other
      let apiOut : GetRes KeystoneAPI :=
        match api with
        | some a =>
          .found { a with finalizers := (removeFinalizer (endpointMarker inst.name) a.finalizers).2 }
        | none => env.keystoneAPIRes
      let inst := { inst with finalizers := (removeFinalizer helperFinalizer inst.finalizers).2 }
      ⟨inst, apiOut, svcOut, 0, none, del.1⟩

/-- `reconcileDeleteFinalizersOnly` (lines 327–362): marker removal with no
remote calls (used when the KeystoneAPI itself is being deleted). -/
def reconcileDeleteFinalizersOnly (env : Env) (inst : KeystoneEndpoint)
    (api : KeystoneAPI) : ReconcileOutcome :=
  match env.keystoneServiceRes with
  | .errored e => ⟨inst, .found api, env.keystoneServiceRes, 0, some e, []⟩
  | svcRes =>
    let svcOut : GetRes KeystoneService :=
      match svcRes with
      | .found svc =>
        .found { svc with finalizers := (removeFinalizer (endpointMarker inst.name) svc.finalizers).2 }
      | other => other
    let api := { api with finalizers := (removeFinalizer (endpointMarker inst.name) api.finalizers).2 }
    let inst := { inst with finalizers := (removeFinalizer helperFinalizer inst.finalizers).2 }
    ⟨inst, .found api, svcOut, 0, none, []⟩

/-- `reconcileNormal` (lines 364–452). -/
def reconcileNormal (env : Env) (inst : KeystoneEndpoint) (api : KeystoneAPI) : ReconcileOutcome :=
  match env.keystoneServiceRes with
  | .notFound => ⟨inst, .found api, .notFound, 5, none, []⟩
  | .errored e => ⟨inst, .found api, env.keystoneServiceRes, 0, some e, []⟩
  | .found svc =>
    let inst :=
      { inst with status := { inst.status with conditions :=
          (setConditionOpt (mirrorCondition keystoneServiceReadyCond svc.conditions)
            inst.status.conditions) } }
    if !svc.ready then
      ⟨inst, .found api, .found svc, 10, none, []⟩
    else
      let inst := { inst with status := { inst.status with serviceID := svc.serviceID } }
      let api := { api with finalizers := (addFinalizer (endpointMarker inst.name) api.finalizers).2 }
      let svc := { svc with finalizers := (addFinalizer (endpointMarker inst.name) svc.finalizers).2 }
      let r := reconcileEndpoints env.avail env.client inst.serviceName inst.specEndpoints inst.status
      match r.err with
      | some e =>
        let inst :=
          { inst with status := { r.status with conditions :=
              (setCondition
                (falseCondition osEndpointsReadyCond errorReason .warning
                  (osEndpointsReadyErrorMessage ++ e))
                r.status.conditions) } }
        ⟨inst, .found api, .found svc, 0, some e, r.calls⟩
      | none =>
        let inst :=
          { inst with status := { r.status with conditions :=
              (markTrue osEndpointsReadyCond osEndpointsReadyMessage r.status.conditions) } }
        ⟨inst, .found api, .found svc, 0, none, r.calls⟩

/-- The body of `Reconcile` (lines 117–246), from the point where the
deferred status-aggregation block is armed.  The instance has been
fetched successfully; paths that exit before the defer is registered
(instance not found / fetch error / helper construction error) are outside
this model. -/
def reconcileBody (env : Env) (inst : KeystoneEndpoint) : ReconcileOutcome :=
  if inst.status.conditions.isEmpty then
    let inst := { inst with status := { inst.status with conditions := initConditionList } }
    ⟨inst, env.keystoneAPIRes, env.keystoneServiceRes, 0, none, []⟩
  else
  let inst := { inst with status := { inst.status with observedGeneration := inst.generation } }
  let add := addFinalizer helperFinalizer inst.finalizers
  if !inst.terminating && add.1 then
    ⟨{ inst with finalizers := add.2 }, env.keystoneAPIRes, env.keystoneServiceRes, 0, none, []⟩
  else
  match env.keystoneAPIRes with
  | .notFound =>
    if inst.terminating && inst.status.endpointIDs.isEmpty then
      reconcileDelete env inst none none
    else
      let inst := setInstCondition
        (falseCondition keystoneAPIReadyCond errorReason .warning keystoneAPIReadyNotFoundMessage)
        inst
      ⟨inst, .notFound, env.keystoneServiceRes, 5, none, []⟩
  | .errored e =>
    let inst := setInstCondition
      (falseCondition keystoneAPIReadyCond errorReason .warning (keystoneAPIReadyErrorMessage ++ e))
      inst
    ⟨inst, env.keystoneAPIRes, env.keystoneServiceRes, 0, some e, []⟩
  | .found api =>
    if inst.terminating && api.terminating then
      reconcileDeleteFinalizersOnly env inst api
    else if inst.terminating && inst.status.endpointIDs.isEmpty then
      reconcileDelete env inst none (some api)
    else if !api.ready then
      let inst := setInstCondition
        (falseCondition keystoneAPIReadyCond requestedReason .info keystoneAPIReadyWaitingMessage)
        inst
      ⟨inst, .found api, env.keystoneServiceRes, 5, none, []⟩
    else
      let inst := markInstTrue keystoneAPIReadyCond keystoneAPIReadyMessage inst
      match env.adminClientRes with
      | .errored e =>
        let inst := setInstCondition
          (falseCondition adminServiceClientReadyCond errorReason .warning
            (adminServiceClientReadyErrorMessage ++ e))
          inst
        ⟨inst, .found api, env.keystoneServiceRes, 0, some e, []⟩
      | .waiting ra =>
        let inst := setInstCondition
          (falseCondition adminServiceClientReadyCond requestedReason .info
            adminServiceClientReadyWaitingMessage)
          inst
        ⟨inst, .found api, env.keystoneServiceRes, ra, none, []⟩
      | .ok =>
        let inst := markInstTrue adminServiceClientReadyCond adminServiceClientReadyMessage inst
        if inst.terminating then
          reconcileDelete env inst (some env.client) (some api)
        else
          reconcileNormal env inst api

/-- `Reconcile` (lines 62–246): the body followed by the deferred
readiness-aggregation and status-patch step, which runs on every exit
(panics and patch failures aside). -/
def Reconcile (env : Env) (inst : KeystoneEndpoint) : ReconcileOutcome :=
  let o := reconcileBody env inst
  { o with inst :=
      ({ o.inst with status :=
          ({ o.inst.status with conditions :=
            (finalizeConditions o.inst.status.conditions) }) }) }

/-! ### Observables and auxiliary definitions used by theorem statements -/

/-- The `Endpoints`-list entry for a type (the first entry with that
`Interface`), as observed by the claims. -/
def findEndpoint (t : String) (es : List Endpoint) : Option Endpoint :=
  es.find? fun e => decide (e.interface = t)

/-- The condition of a given type in a condition collection. -/
def findCondition (t : String) (cs : List Condition) : Option Condition :=
  cs.find? fun c => decide (c.type = t)

/-- No delete call occurs after any create/update call in the log. -/
def deletesBeforeCU : List LoggedCall → Bool
  | [] => true
  | c :: rest =>
    if c.call.isCreateOrUpdate then rest.all fun x => !x.call.isDelete
    else deletesBeforeCU rest

/-- The availability a resolver yields on success (`""` on failure). -/
def availOf (avail : String → Except String String) (t : String) : String :=
  match avail t with
  | .ok a => a
  | .error _ => ""

/-- The calls one converge iteration issues for a spec entry; a pure
function of the entry, the service name/ID and the collaborators (the
evolving status only enters through the fixed `ServiceID`). -/
def convergeStepCalls (avail : String → Except String String) (client : OSClient)
    (serviceName sid : String) (endpointType endpointURL : String) : List LoggedCall :=
  match avail endpointType with
  | .error _ => []
  | .ok availability =>
    let calls := [⟨endpointType, RemoteCall.getEndpoints sid endpointType⟩]
    match client.getEndpoints sid endpointType with
    | .error _ => calls
    | .ok allEndpoints =>
      match allEndpoints with
      | [] =>
        calls ++ [⟨endpointType, RemoteCall.createEndpoint
          { name := serviceName, serviceID := sid,
            availability := availability, url := endpointURL }⟩]
      | [endpoint] =>
        if endpointURL ≠ endpoint.url then
          calls ++ [⟨endpointType, RemoteCall.updateEndpoint
            { name := endpoint.name, serviceID := endpoint.serviceID,
              availability := availability, url := endpointURL } endpoint.id⟩]
        else calls
      | _ :: _ :: _ => calls

/-- Whether one converge iteration succeeds for a spec entry; a pure
function of the entry, like `convergeStepCalls`. -/
def convergeStepOk (avail : String → Except String String) (client : OSClient)
    (serviceName sid : String) (endpointType endpointURL : String) : Bool :=
  match avail endpointType with
  | .error _ => false
  | .ok availability =>
    match client.getEndpoints sid endpointType with
    | .error _ => false
    | .ok allEndpoints =>
      match allEndpoints with
      | [] =>
        match client.createEndpoint
            { name := serviceName, serviceID := sid,
              availability := availability, url := endpointURL } with
        | .error _ => false
        | .ok _ => true
      | [endpoint] =>
        if endpointURL ≠ endpoint.url then
          match client.updateEndpoint
              { name := endpoint.name, serviceID := endpoint.serviceID,
                availability := availability, url := endpointURL } endpoint.id with
          | .error _ => false
          | .ok _ => true
        else true
      | _ :: _ :: _ => false

/-! ### Concrete fixtures used by witnesses and counterexamples -/

/-- A resolver that accepts every endpoint type. -/
def fxAvail : String → Except String String := fun t => Except.ok ("av-" ++ t)

/-- A client over an empty remote registry. -/
def fxEmptyClient : OSClient :=
  { getEndpoints := fun _ _ => Except.ok []
    createEndpoint := fun _ => Except.ok "id1"
    updateEndpoint := fun _ _ => Except.ok "id9"
    deleteEndpoint := fun _ => Except.ok () }

/-- A remote endpoint matching the fixture spec entry. -/
def fxMatched : RemoteEndpoint :=
  { id := "id1", name := "nova", serviceID := "svc1",
    availability := "av-public", url := "u1" }

/-- A client whose registry holds exactly the matching endpoint. -/
def fxOneClient : OSClient :=
  { fxEmptyClient with getEndpoints := fun _ _ => Except.ok [fxMatched] }

/-- A client whose registry holds two endpoints for the queried type. -/
def fxMultiClient : OSClient :=
  { fxEmptyClient with getEndpoints := fun _ _ =>
      (Except.ok [fxMatched, { fxMatched with id := "id2" }]) }

/-- A client whose registry query fails. -/
def fxGetFailClient : OSClient :=
  { fxEmptyClient with getEndpoints := fun _ _ => Except.error "boom" }

/-- An empty status. -/
def fxSt0 : EndpointStatus :=
  { serviceID := "svc1", endpointIDs := [], endpoints := [],
    conditions := [], observedGeneration := 0 }

/-- A status recording the fixture endpoint. -/
def fxSt1 : EndpointStatus :=
  { fxSt0 with
    endpointIDs := [("public", "id1")],
    endpoints := [{ interface := "public", url := "u1", id := "id1" }] }

/-- A ready KeystoneAPI carrying the fixture instance marker. -/
def fxAPI : KeystoneAPI :=
  { terminating := false, finalizers := [endpointMarker "e1"], ready := true }

/-- A ready KeystoneService carrying the fixture instance marker. -/
def fxSvc : KeystoneService :=
  { finalizers := [endpointMarker "e1", "other"], ready := true,
    serviceID := "svc1", conditions := [] }

/-- A fixture environment with every dependency present and ready. -/
def fxEnv : Env :=
  { keystoneAPIRes := GetRes.found fxAPI
    keystoneServiceRes := GetRes.found fxSvc
    adminClientRes := AdminClientRes.ok
    avail := fxAvail
    client := fxEmptyClient }

/-- A fixture instance with initialized conditions and its own finalizer. -/
def fxInst : KeystoneEndpoint :=
  { name := "e1", generation := 3, terminating := false, finalizers := [helperFinalizer],
    serviceName := "nova", specEndpoints := [("public", "u1")],
    status := { fxSt1 with conditions := initConditionList } }

/-- The fixture instance marked for deletion with no recorded endpoint ids. -/
def fxInstDel : KeystoneEndpoint :=
  { fxInst with
    terminating := true,
    status := { fxInst.status with endpointIDs := [] } }

/-- The fixture instance marked for deletion, keeping its recorded ids. -/
def fxInstTerm : KeystoneEndpoint :=
  { fxInst with terminating := true }

/-- The fixture environment with the KeystoneAPI registration absent. -/
def fxEnvNoAPI : Env :=
  { fxEnv with keystoneAPIRes := GetRes.notFound }

/-- The fixture environment with the KeystoneService registration absent. -/
def fxEnvNoSvc : Env :=
  { fxEnv with keystoneServiceRes := GetRes.notFound }

/-! Lemmas: association-list primitives. -/

theorem lookupKey_isSome_of_mem {k v : String} {m : List (String × String)}
    (h : (k, v) ∈ m) : (lookupKey k m).isSome := by
  induction m with
  | nil => cases h
  | cons p rest ih =>
    obtain ⟨k1, v1⟩ := p
    rcases List.mem_cons.mp h with h1 | h1
    · rw [← h1]
      simp [lookupKey]
    · by_cases hk : k1 = k
      · simp [lookupKey, hk]
      · simpa [lookupKey, hk] using ih h1

theorem fst_ne_of_lookupKey_none {t : String} {m : List (String × String)}
    (h : lookupKey t m = none) {p : String × String} (hp : p ∈ m) : p.1 ≠ t := by
  intro he
  have : (t, p.2) ∈ m := by
    have : p = (t, p.2) := by
      cases p
      simp_all
    rw [← this]
    exact hp
  have hs := lookupKey_isSome_of_mem this
  rw [h] at hs
  cases hs

theorem lookupKey_eq_none_of_not_mem {k : String} {m : List (String × String)}
    (h : k ∉ keysOf m) : lookupKey k m = none := by
  induction m with
  | nil => rfl
  | cons p rest ih =>
    obtain ⟨k1, v1⟩ := p
    simp only [keysOf, List.map_cons, List.mem_cons] at h
    push_neg at h
    simp only [lookupKey, if_neg (Ne.symm h.1)]
    exact ih (by simpa [keysOf] using h.2)

theorem lookupKey_eraseKey_ne {k t : String} (hne : k ≠ t) (m : List (String × String)) :
    lookupKey t (eraseKey k m) = lookupKey t m := by
  induction m with
  | nil => rfl
  | cons p rest ih =>
    obtain ⟨k1, v1⟩ := p
    by_cases h1 : k1 = k
    · subst h1
      simp [eraseKey, lookupKey, hne]
    · by_cases h2 : k1 = t
      · subst h2
        simp [eraseKey, lookupKey, h1]
      · simp [eraseKey, lookupKey, h1, h2, ih]

theorem keysOf_eraseKey_sublist (k : String) (m : List (String × String)) :
    (keysOf (eraseKey k m)).Sublist (keysOf m) := by
  induction m with
  | nil => simp [eraseKey, keysOf]
  | cons p rest ih =>
    obtain ⟨k1, v1⟩ := p
    by_cases h1 : k1 = k
    · simp only [eraseKey, keysOf, h1, if_pos rfl, List.map_cons]
      exact (List.sublist_cons_self _ _)
    · simpa [eraseKey, keysOf, h1] using ih.cons₂ k1

theorem nodup_keysOf_eraseKey {k : String} {m : List (String × String)}
    (h : (keysOf m).Nodup) : (keysOf (eraseKey k m)).Nodup :=
  h.sublist (keysOf_eraseKey_sublist k m)

theorem lookupKey_eraseKey_self {k : String} {m : List (String × String)}
    (h : (keysOf m).Nodup) : lookupKey k (eraseKey k m) = none := by
  induction m with
  | nil => rfl
  | cons p rest ih =>
    obtain ⟨k1, v1⟩ := p
    simp only [keysOf, List.map_cons, List.nodup_cons] at h
    by_cases h1 : k1 = k
    · subst h1
      simp only [eraseKey, if_pos rfl]
      exact lookupKey_eq_none_of_not_mem (by simpa [keysOf] using h.1)
    · simp only [eraseKey, if_neg h1, lookupKey, if_neg h1]
      exact ih h.2

theorem lookupKey_upsertKey_ne {k t : String} (hne : k ≠ t) (v : String)
    (m : List (String × String)) :
    lookupKey t (upsertKey k v m) = lookupKey t m := by
  induction m with
  | nil => simp [upsertKey, lookupKey, hne]
  | cons p rest ih =>
    obtain ⟨k1, v1⟩ := p
    by_cases h1 : k1 = k
    · subst h1
      simp [upsertKey, lookupKey, hne]
    · by_cases h2 : k1 = t
      · subst h2
        simp [upsertKey, lookupKey, h1]
      · simp [upsertKey, lookupKey, h1, h2, ih]

theorem lookupKey_upsertKey_self (k v : String) (m : List (String × String)) :
    lookupKey k (upsertKey k v m) = some v := by
  induction m with
  | nil => simp [upsertKey, lookupKey]
  | cons p rest ih =>
    obtain ⟨k1, v1⟩ := p
    by_cases h1 : k1 = k
    · subst h1
      simp [upsertKey, lookupKey]
    · simp [upsertKey, lookupKey, h1, ih]

/-! Lemmas: the list surgery on `Status.Endpoints`. -/

theorem getEndpointIdx_nonneg_succ {t : String} {rest : List Endpoint}
    (hi : getEndpointIdx t rest ≥ 0) :
    (getEndpointIdx t rest + 1).toNat = (getEndpointIdx t rest).toNat + 1 := by
  omega

theorem removeEndpointEntry_eq_eraseP (t : String) (es : List Endpoint) :
    removeEndpointEntry t es = es.eraseP (fun e => decide (e.interface = t)) := by
  induction es with
  | nil => simp [removeEndpointEntry, getEndpointIdx]
  | cons e rest ih =>
    by_cases he : e.interface = t
    · simp [removeEndpointEntry, getEndpointIdx, he, List.eraseP_cons]
    · by_cases hi : getEndpointIdx t rest ≥ 0
      · have h2 : (0 : Int) ≤ getEndpointIdx t rest + 1 := by omega
        simp only [removeEndpointEntry, getEndpointIdx, if_neg he, if_pos hi, if_pos h2,
          getEndpointIdx_nonneg_succ hi, List.eraseIdx_cons_succ, List.eraseP_cons,
          decide_eq_false he, cond_false] at ih ⊢
        rw [← ih]
      · have h3 : ¬ ((-1 : Int) ≥ 0) := by omega
        simp only [removeEndpointEntry, getEndpointIdx, if_neg he, if_neg hi, if_neg h3,
          List.eraseP_cons, decide_eq_false he, cond_false] at ih ⊢
        rw [← ih]

theorem upsertEndpointEntry_nil (t url id : String) :
    upsertEndpointEntry t url id [] = [{ interface := t, url := url, id := id }] := by
  simp [upsertEndpointEntry, getEndpointIdx]

theorem upsertEndpointEntry_cons_pos {t : String} {e : Endpoint} (he : e.interface = t)
    (url id : String) (rest : List Endpoint) :
    upsertEndpointEntry t url id (e :: rest) = { e with url := url, id := id } :: rest := by
  simp [upsertEndpointEntry, getEndpointIdx, he, setEndpointURLID]

theorem upsertEndpointEntry_cons_neg {t : String} {e : Endpoint} (he : ¬ e.interface = t)
    (url id : String) (rest : List Endpoint) :
    upsertEndpointEntry t url id (e :: rest) = e :: upsertEndpointEntry t url id rest := by
  by_cases hi : getEndpointIdx t rest ≥ 0
  · have h2 : (0 : Int) ≤ getEndpointIdx t rest + 1 := by omega
    simp only [upsertEndpointEntry, getEndpointIdx, if_neg he, if_pos hi, if_pos h2,
      getEndpointIdx_nonneg_succ hi, setEndpointURLID]
  · have h3 : ¬ ((-1 : Int) ≥ 0) := by omega
    simp only [upsertEndpointEntry, getEndpointIdx, if_neg he, if_neg hi, if_neg h3,
      List.cons_append]

theorem findEndpoint_removeEndpointEntry_ne {k t : String} (hkt : k ≠ t)
    (es : List Endpoint) :
    findEndpoint t (removeEndpointEntry k es) = findEndpoint t es := by
  rw [removeEndpointEntry_eq_eraseP]
  induction es with
  | nil => rfl
  | cons e rest ih =>
    by_cases he : e.interface = k
    · have het : ¬ e.interface = t := fun h => hkt (by rw [← he, h])
      have h1 : List.eraseP (fun x => decide (x.interface = k)) (e :: rest) = rest := by
        simp [List.eraseP_cons, he]
      rw [h1]
      simp only [findEndpoint]
      rw [List.find?_cons_of_neg _ (by simp [het])]
    · have h1 : List.eraseP (fun x => decide (x.interface = k)) (e :: rest)
          = e :: List.eraseP (fun x => decide (x.interface = k)) rest := by
        simp [List.eraseP_cons, he]
      rw [h1]
      by_cases het : e.interface = t
      · simp only [findEndpoint]
        rw [List.find?_cons_of_pos _ (by simp [het]), List.find?_cons_of_pos _ (by simp [het])]
      · simp only [findEndpoint] at ih ⊢
        rw [List.find?_cons_of_neg _ (by simp [het]), List.find?_cons_of_neg _ (by simp [het])]
        exact ih

theorem findEndpoint_eq_none_of_not_mem {t : String} {es : List Endpoint}
    (h : ∀ e ∈ es, e.interface ≠ t) : findEndpoint t es = none := by
  unfold findEndpoint
  rw [List.find?_eq_none]
  intro e he
  simpa using h e he

theorem findEndpoint_removeEndpointEntry_self {t : String} {es : List Endpoint}
    (hnd : (es.map Endpoint.interface).Nodup) :
    findEndpoint t (removeEndpointEntry t es) = none := by
  rw [removeEndpointEntry_eq_eraseP]
  induction es with
  | nil => rfl
  | cons e rest ih =>
    simp only [List.map_cons, List.nodup_cons] at hnd
    by_cases he : e.interface = t
    · simp only [List.eraseP_cons, decide_eq_true he, cond_true]
      apply findEndpoint_eq_none_of_not_mem
      intro x hx hxe
      exact hnd.1 (by
        rw [he, ← hxe]
        exact List.mem_map_of_mem Endpoint.interface hx)
    · simp only [List.eraseP_cons, decide_eq_false he, cond_false]
      simp only [findEndpoint]
      rw [List.find?_cons_of_neg _ (by simp [he])]
      exact ih hnd.2

theorem findEndpoint_upsertEndpointEntry_ne {k t : String} (hkt : k ≠ t)
    (url id : String) (es : List Endpoint) :
    findEndpoint t (upsertEndpointEntry k url id es) = findEndpoint t es := by
  induction es with
  | nil =>
    rw [upsertEndpointEntry_nil]
    simp only [findEndpoint]
    rw [List.find?_cons_of_neg _ (by simp [hkt])]
  | cons e rest ih =>
    by_cases he : e.interface = k
    · have het : ¬ e.interface = t := fun h => hkt (by rw [← he, h])
      rw [upsertEndpointEntry_cons_pos he]
      simp only [findEndpoint]
      rw [List.find?_cons_of_neg _ (by simpa using het), List.find?_cons_of_neg _ (by simp [het])]
    · rw [upsertEndpointEntry_cons_neg he]
      by_cases het : e.interface = t
      · simp only [findEndpoint]
        rw [List.find?_cons_of_pos _ (by simp [het]), List.find?_cons_of_pos _ (by simp [het])]
      · simp only [findEndpoint] at ih ⊢
        rw [List.find?_cons_of_neg _ (by simp [het]), List.find?_cons_of_neg _ (by simp [het])]
        exact ih

/-! Lemmas: the converge-iteration status mutation. -/

theorem applyEndpointStatus_serviceID (spec : List (String × String)) (k u i : String)
    (st : EndpointStatus) : (applyEndpointStatus spec k u i st).serviceID = st.serviceID := by
  unfold applyEndpointStatus
  split_ifs <;> rfl

theorem applyEndpointStatus_conditions (spec : List (String × String)) (k u i : String)
    (st : EndpointStatus) : (applyEndpointStatus spec k u i st).conditions = st.conditions := by
  unfold applyEndpointStatus
  split_ifs <;> rfl

theorem applyEndpointStatus_observedGeneration (spec : List (String × String)) (k u i : String)
    (st : EndpointStatus) :
    (applyEndpointStatus spec k u i st).observedGeneration = st.observedGeneration := by
  unfold applyEndpointStatus
  split_ifs <;> rfl

theorem lookupKey_applyEndpointStatus_ne {k t : String} (hkt : k ≠ t)
    (spec : List (String × String)) (u i : String) (st : EndpointStatus) :
    lookupKey t (applyEndpointStatus spec k u i st).endpointIDs
      = lookupKey t st.endpointIDs := by
  unfold applyEndpointStatus
  split_ifs with h1 h2
  · rfl
  · exact lookupKey_upsertKey_ne hkt i st.endpointIDs
  · rfl

theorem findEndpoint_applyEndpointStatus_ne {k t : String} (hkt : k ≠ t)
    (spec : List (String × String)) (u i : String) (st : EndpointStatus) :
    findEndpoint t (applyEndpointStatus spec k u i st).endpoints
      = findEndpoint t st.endpoints := by
  unfold applyEndpointStatus
  split_ifs with h1 h2
  · rfl
  · exact findEndpoint_upsertEndpointEntry_ne hkt u i st.endpoints
  · exact findEndpoint_upsertEndpointEntry_ne hkt u i st.endpoints

theorem lookupKey_applyEndpointStatus_isSome {spec : List (String × String)}
    {k t u i : String} {st : EndpointStatus}
    (h : (lookupKey t (applyEndpointStatus spec k u i st).endpointIDs).isSome = true) :
    (lookupKey t spec).isSome = true ∨ (lookupKey t st.endpointIDs).isSome = true := by
  by_cases hkt : k = t
  · subst hkt
    unfold applyEndpointStatus at h
    split_ifs at h with h1 h2
    · exact Or.inr h
    · exact Or.inl h2
    · exact Or.inr h
  · rw [lookupKey_applyEndpointStatus_ne hkt] at h
    exact Or.inr h

/-! Lemmas: unfolding equations for the retire pass. -/

theorem retireLoop_nil (avail : String → Except String String) (client : OSClient)
    (sn : String) (spec : List (String × String)) (st : EndpointStatus)
    (c0 : List LoggedCall) : retireLoop avail client sn spec [] st c0 = ⟨st, c0, none⟩ := rfl

theorem retireLoop_cons_skip {spec : List (String × String)} {t : String}
    (h : (lookupKey t spec).isSome = true) (avail : String → Except String String)
    (client : OSClient) (sn v : String) (rest : List (String × String))
    (st : EndpointStatus) (c0 : List LoggedCall) :
    retireLoop avail client sn spec ((t, v) :: rest) st c0 =
      retireLoop avail client sn spec rest st c0 := by
  simp [retireLoop, h]

theorem retireLoop_cons_availErr {spec : List (String × String)} {t : String}
    {avail : String → Except String String} {e : String}
    (h : (lookupKey t spec).isSome = false) (ha : avail t = .error e) (client : OSClient)
    (sn v : String) (rest : List (String × String)) (st : EndpointStatus)
    (c0 : List LoggedCall) :
    retireLoop avail client sn spec ((t, v) :: rest) st c0 = ⟨st, c0, some e⟩ := by
  simp [retireLoop, h, ha]

theorem retireLoop_cons_delErr {spec : List (String × String)} {t : String}
    {avail : String → Except String String} {client : OSClient} {a sn e : String}
    {st : EndpointStatus}
    (h : (lookupKey t spec).isSome = false) (ha : avail t = .ok a)
    (hd : client.deleteEndpoint
        { name := sn, serviceID := st.serviceID, availability := a, url := "" } = .error e)
    (v : String) (rest : List (String × String)) (c0 : List LoggedCall) :
    retireLoop avail client sn spec ((t, v) :: rest) st c0 =
      ⟨st, c0 ++ [⟨t, RemoteCall.deleteEndpoint
        { name := sn, serviceID := st.serviceID, availability := a, url := "" }⟩], some e⟩ := by
  simp [retireLoop, h, ha, hd]

theorem retireLoop_cons_delOk {spec : List (String × String)} {t : String}
    {avail : String → Except String String} {client : OSClient} {a sn : String}
    {st : EndpointStatus} {u : Unit}
    (h : (lookupKey t spec).isSome = false) (ha : avail t = .ok a)
    (hd : client.deleteEndpoint
        { name := sn, serviceID := st.serviceID, availability := a, url := "" } = .ok u)
    (v : String) (rest : List (String × String)) (c0 : List LoggedCall) :
    retireLoop avail client sn spec ((t, v) :: rest) st c0 =
      retireLoop avail client sn spec rest
        { st with endpointIDs := eraseKey t st.endpointIDs,
                  endpoints := removeEndpointEntry t st.endpoints }
        (c0 ++ [⟨t, RemoteCall.deleteEndpoint
          { name := sn, serviceID := st.serviceID, availability := a, url := "" }⟩]) := by
  simp [retireLoop, h, ha, hd]

/-! Lemmas: structure of the retire pass. -/

theorem nodup_interfaces_removeEndpointEntry {t : String} {es : List Endpoint}
    (h : (es.map Endpoint.interface).Nodup) :
    ((removeEndpointEntry t es).map Endpoint.interface).Nodup := by
  rw [removeEndpointEntry_eq_eraseP]
  exact h.sublist ((List.eraseP_sublist es).map Endpoint.interface)

theorem retireLoop_basic (avail : String → Except String String) (client : OSClient)
    (sn : String) (spec : List (String × String)) :
    ∀ (l : List (String × String)) (st : EndpointStatus) (c0 : List LoggedCall),
    (retireLoop avail client sn spec l st c0).status.serviceID = st.serviceID ∧
    (retireLoop avail client sn spec l st c0).status.conditions = st.conditions ∧
    (retireLoop avail client sn spec l st c0).status.observedGeneration
      = st.observedGeneration ∧
    (∀ c ∈ (retireLoop avail client sn spec l st c0).calls,
      c ∈ c0 ∨ (c.call.isDelete = true ∧ (lookupKey c.endpointType spec).isSome = false)) := by
  intro l
  induction l with
  | nil =>
    intro st c0
    rw [retireLoop_nil]
    exact ⟨rfl, rfl, rfl, fun c hc => Or.inl hc⟩
  | cons p rest ih =>
    intro st c0
    obtain ⟨t, v⟩ := p
    cases hl : (lookupKey t spec).isSome with
    | true =>
      rw [retireLoop_cons_skip hl]
      exact ih st c0
    | false =>
      cases ha : avail t with
      | error e =>
        rw [retireLoop_cons_availErr hl ha]
        exact ⟨rfl, rfl, rfl, fun c hc => Or.inl hc⟩
      | ok a =>
        cases hd : client.deleteEndpoint
            { name := sn, serviceID := st.serviceID, availability := a, url := "" } with
        | error e =>
          rw [retireLoop_cons_delErr hl ha hd]
          refine ⟨rfl, rfl, rfl, fun c hc => ?_⟩
          rcases List.mem_append.mp hc with h | h
          · exact Or.inl h
          · rw [List.mem_singleton] at h
            subst h
            exact Or.inr ⟨rfl, hl⟩
        | ok u =>
          rw [retireLoop_cons_delOk hl ha hd]
          obtain ⟨h1, h2, h3, h4⟩ := ih
            { st with endpointIDs := eraseKey t st.endpointIDs,
                      endpoints := removeEndpointEntry t st.endpoints }
            (c0 ++ [⟨t, RemoteCall.deleteEndpoint
              { name := sn, serviceID := st.serviceID, availability := a, url := "" }⟩])
          refine ⟨h1, h2, h3, fun c hc => ?_⟩
          rcases h4 c hc with h | h
          · rcases List.mem_append.mp h with h5 | h5
            · exact Or.inl h5
            · rw [List.mem_singleton] at h5
              subst h5
              exact Or.inr ⟨rfl, hl⟩
          · exact Or.inr h

theorem retireLoop_frame {spec : List (String × String)} {t : String}
    (ht : (lookupKey t spec).isSome = true) (avail : String → Except String String)
    (client : OSClient) (sn : String) :
    ∀ (l : List (String × String)) (st : EndpointStatus) (c0 : List LoggedCall),
    lookupKey t (retireLoop avail client sn spec l st c0).status.endpointIDs
      = lookupKey t st.endpointIDs ∧
    findEndpoint t (retireLoop avail client sn spec l st c0).status.endpoints
      = findEndpoint t st.endpoints := by
  intro l
  induction l with
  | nil =>
    intro st c0
    rw [retireLoop_nil]
    exact ⟨rfl, rfl⟩
  | cons p rest ih =>
    intro st c0
    obtain ⟨k, v⟩ := p
    cases hl : (lookupKey k spec).isSome with
    | true =>
      rw [retireLoop_cons_skip hl]
      exact ih st c0
    | false =>
      have hkt : k ≠ t := by
        intro he
        rw [he, ht] at hl
        cases hl
      cases ha : avail k with
      | error e =>
        rw [retireLoop_cons_availErr hl ha]
        exact ⟨rfl, rfl⟩
      | ok a =>
        cases hd : client.deleteEndpoint
            { name := sn, serviceID := st.serviceID, availability := a, url := "" } with
        | error e =>
          rw [retireLoop_cons_delErr hl ha hd]
          exact ⟨rfl, rfl⟩
        | ok u =>
          rw [retireLoop_cons_delOk hl ha hd]
          obtain ⟨h1, h2⟩ := ih
            { st with endpointIDs := eraseKey k st.endpointIDs,
                      endpoints := removeEndpointEntry k st.endpoints }
            (c0 ++ [⟨k, RemoteCall.deleteEndpoint
              { name := sn, serviceID := st.serviceID, availability := a, url := "" }⟩])
          constructor
          · rw [h1]
            exact lookupKey_eraseKey_ne hkt st.endpointIDs
          · rw [h2]
            exact findEndpoint_removeEndpointEntry_ne hkt st.endpoints

theorem retireLoop_all_in_spec {spec : List (String × String)}
    (avail : String → Except String String) (client : OSClient) (sn : String) :
    ∀ (l : List (String × String)) (st : EndpointStatus) (c0 : List LoggedCall),
    (∀ p ∈ l, (lookupKey p.1 spec).isSome = true) →
    retireLoop avail client sn spec l st c0 = ⟨st, c0, none⟩ := by
  intro l
  induction l with
  | nil =>
    intro st c0 _
    exact retireLoop_nil avail client sn spec st c0
  | cons p rest ih =>
    intro st c0 h
    obtain ⟨t, v⟩ := p
    rw [retireLoop_cons_skip (h (t, v) (List.mem_cons_self _ _))]
    exact ih st c0 fun q hq => h q (List.mem_cons_of_mem _ hq)

theorem retireLoop_untouched_key {t : String} (avail : String → Except String String)
    (client : OSClient) (sn : String) (spec : List (String × String)) :
    ∀ (l : List (String × String)) (st : EndpointStatus) (c0 : List LoggedCall),
    (∀ p ∈ l, p.1 ≠ t) →
    lookupKey t (retireLoop avail client sn spec l st c0).status.endpointIDs
      = lookupKey t st.endpointIDs ∧
    findEndpoint t (retireLoop avail client sn spec l st c0).status.endpoints
      = findEndpoint t st.endpoints ∧
    (retireLoop avail client sn spec l st c0).calls.countP
        (fun c => decide (c.endpointType = t) && c.call.isDelete)
      = c0.countP (fun c => decide (c.endpointType = t) && c.call.isDelete) := by
  intro l
  induction l with
  | nil =>
    intro st c0 h
    rw [retireLoop_nil]
    exact ⟨rfl, rfl, rfl⟩
  | cons p rest ih =>
    intro st c0 h
    obtain ⟨k, v⟩ := p
    have hkt : k ≠ t := h (k, v) (List.mem_cons_self _ _)
    have hrest : ∀ p ∈ rest, p.1 ≠ t := fun q hq => h q (List.mem_cons_of_mem _ hq)
    cases hl : (lookupKey k spec).isSome with
    | true =>
      rw [retireLoop_cons_skip hl]
      exact ih st c0 hrest
    | false =>
      cases ha : avail k with
      | error e =>
        rw [retireLoop_cons_availErr hl ha]
        exact ⟨rfl, rfl, rfl⟩
      | ok a =>
        cases hd : client.deleteEndpoint
            { name := sn, serviceID := st.serviceID, availability := a, url := "" } with
        | error e =>
          rw [retireLoop_cons_delErr hl ha hd]
          refine ⟨rfl, rfl, ?_⟩
          rw [List.countP_append]
          simp [hkt]
        | ok u =>
          rw [retireLoop_cons_delOk hl ha hd]
          obtain ⟨h1, h2, h3⟩ := ih
            { st with endpointIDs := eraseKey k st.endpointIDs,
                      endpoints := removeEndpointEntry k st.endpoints }
            (c0 ++ [⟨k, RemoteCall.deleteEndpoint
              { name := sn, serviceID := st.serviceID, availability := a, url := "" }⟩])
            hrest
          refine ⟨?_, ?_, ?_⟩
          · rw [h1]
            exact lookupKey_eraseKey_ne hkt st.endpointIDs
          · rw [h2]
            exact findEndpoint_removeEndpointEntry_ne hkt st.endpoints
          · rw [h3, List.countP_append]
            simp [hkt]

theorem retireLoop_removes {spec : List (String × String)} {t : String}
    (hns : (lookupKey t spec).isSome = false) (avail : String → Except String String)
    (client : OSClient) (sn : String) :
    ∀ (l : List (String × String)) (st : EndpointStatus) (c0 : List LoggedCall),
    (∃ v, (t, v) ∈ l) →
    (l.map Prod.fst).Nodup →
    (keysOf st.endpointIDs).Nodup →
    (st.endpoints.map Endpoint.interface).Nodup →
    (retireLoop avail client sn spec l st c0).err = none →
    lookupKey t (retireLoop avail client sn spec l st c0).status.endpointIDs = none ∧
    findEndpoint t (retireLoop avail client sn spec l st c0).status.endpoints = none ∧
    (retireLoop avail client sn spec l st c0).calls.countP
        (fun c => decide (c.endpointType = t) && c.call.isDelete)
      = c0.countP (fun c => decide (c.endpointType = t) && c.call.isDelete) + 1 := by
  intro l
  induction l with
  | nil =>
    intro st c0 hmem _ _ _ _
    obtain ⟨v, hv⟩ := hmem
    cases hv
  | cons p rest ih =>
    intro st c0 hmem hndl hndk hndi herr
    obtain ⟨k, v⟩ := p
    simp only [List.map_cons, List.nodup_cons] at hndl
    by_cases hkt : k = t
    · subst hkt
      cases ha : avail k with
      | error e =>
        rw [retireLoop_cons_availErr hns ha] at herr
        simp at herr
      | ok a =>
        cases hd : client.deleteEndpoint
            { name := sn, serviceID := st.serviceID, availability := a, url := "" } with
        | error e =>
          rw [retireLoop_cons_delErr hns ha hd] at herr
          simp at herr
        | ok u =>
          rw [retireLoop_cons_delOk hns ha hd]
          have hrest : ∀ q ∈ rest, q.1 ≠ k := fun q hq he =>
            hndl.1 (he ▸ List.mem_map_of_mem Prod.fst hq)
          obtain ⟨h1, h2, h3⟩ := retireLoop_untouched_key avail client sn spec rest
            { st with endpointIDs := eraseKey k st.endpointIDs,
                      endpoints := removeEndpointEntry k st.endpoints }
            (c0 ++ [⟨k, RemoteCall.deleteEndpoint
              { name := sn, serviceID := st.serviceID, availability := a, url := "" }⟩])
            hrest
          refine ⟨?_, ?_, ?_⟩
          · rw [h1]
            exact lookupKey_eraseKey_self hndk
          · rw [h2]
            exact findEndpoint_removeEndpointEntry_self hndi
          · rw [h3, List.countP_append]
            simp [RemoteCall.isDelete]
    · have hmem2 : ∃ v0, (t, v0) ∈ rest := by
        obtain ⟨v0, hv0⟩ := hmem
        rcases List.mem_cons.mp hv0 with h | h
        · exfalso
          apply hkt
          have := congrArg Prod.fst h
          simpa using this.symm
        · exact ⟨v0, h⟩
      cases hl : (lookupKey k spec).isSome with
      | true =>
        rw [retireLoop_cons_skip hl] at herr ⊢
        exact ih st c0 hmem2 hndl.2 hndk hndi herr
      | false =>
        cases ha : avail k with
        | error e =>
          rw [retireLoop_cons_availErr hl ha] at herr
          simp at herr
        | ok a =>
          cases hd : client.deleteEndpoint
              { name := sn, serviceID := st.serviceID, availability := a, url := "" } with
          | error e =>
            rw [retireLoop_cons_delErr hl ha hd] at herr
            simp at herr
          | ok u =>
            rw [retireLoop_cons_delOk hl ha hd] at herr ⊢
            obtain ⟨h1, h2, h3⟩ := ih
              { st with endpointIDs := eraseKey k st.endpointIDs,
                        endpoints := removeEndpointEntry k st.endpoints }
              (c0 ++ [⟨k, RemoteCall.deleteEndpoint
                { name := sn, serviceID := st.serviceID, availability := a, url := "" }⟩])
              hmem2 hndl.2 (nodup_keysOf_eraseKey hndk)
              (nodup_interfaces_removeEndpointEntry hndi) herr
            refine ⟨h1, h2, ?_⟩
            rw [h3, List.countP_append]
            simp [hkt]

/-! Lemmas: one converge iteration. -/

theorem convergeStep_calls_ok (avail : String → Except String String) (client : OSClient)
    (sn : String) (spec : List (String × String)) (t u : String) (st : EndpointStatus) :
    (convergeStep avail client sn spec t u st).calls
        = convergeStepCalls avail client sn st.serviceID t u
    ∧ ((convergeStep avail client sn spec t u st).err = none
        ↔ convergeStepOk avail client sn st.serviceID t u = true) := by
  cases ha : avail t with
  | error e => simp [convergeStep, convergeStepCalls, convergeStepOk, ha]
  | ok a =>
    cases hg : client.getEndpoints st.serviceID t with
    | error e => simp [convergeStep, convergeStepCalls, convergeStepOk, ha, hg]
    | ok es =>
      cases es with
      | nil =>
        cases hc : client.createEndpoint
            { name := sn, serviceID := st.serviceID, availability := a, url := u } with
        | error e => simp [convergeStep, convergeStepCalls, convergeStepOk, ha, hg, hc]
        | ok id0 => simp [convergeStep, convergeStepCalls, convergeStepOk, ha, hg, hc]
      | cons e0 tail =>
        cases tail with
        | nil =>
          by_cases hu : u = e0.url
          · simp [convergeStep, convergeStepCalls, convergeStepOk, ha, hg, hu]
          · cases hupd : client.updateEndpoint
                { name := e0.name, serviceID := e0.serviceID,
                  availability := a, url := u } e0.id with
            | error e =>
              simp [convergeStep, convergeStepCalls, convergeStepOk, ha, hg, hu, hupd]
            | ok id0 =>
              simp [convergeStep, convergeStepCalls, convergeStepOk, ha, hg, hu, hupd]
        | cons e1 tail2 =>
          simp [convergeStep, convergeStepCalls, convergeStepOk, ha, hg]

/-! Lemmas: unfolding equations for one converge iteration. -/

theorem convergeStep_availErr {avail : String → Except String String} {t e : String}
    (ha : avail t = .error e) (client : OSClient) (sn : String)
    (spec : List (String × String)) (u : String) (st : EndpointStatus) :
    convergeStep avail client sn spec t u st = ⟨st, [], some e⟩ := by
  simp [convergeStep, ha]

theorem convergeStep_getErr {avail : String → Except String String} {client : OSClient}
    {t a e : String} {st : EndpointStatus}
    (ha : avail t = .ok a) (hg : client.getEndpoints st.serviceID t = .error e)
    (sn : String) (spec : List (String × String)) (u : String) :
    convergeStep avail client sn spec t u st =
      ⟨st, [⟨t, RemoteCall.getEndpoints st.serviceID t⟩], some e⟩ := by
  simp [convergeStep, ha, hg]

theorem convergeStep_createErr {avail : String → Except String String} {client : OSClient}
    {t a e sn u : String} {st : EndpointStatus}
    (ha : avail t = .ok a) (hg : client.getEndpoints st.serviceID t = .ok [])
    (hc : client.createEndpoint
      { name := sn, serviceID := st.serviceID, availability := a, url := u } = .error e)
    (spec : List (String × String)) :
    convergeStep avail client sn spec t u st =
      ⟨st, [⟨t, RemoteCall.getEndpoints st.serviceID t⟩,
        ⟨t, RemoteCall.createEndpoint
          { name := sn, serviceID := st.serviceID, availability := a, url := u }⟩],
        some e⟩ := by
  simp [convergeStep, ha, hg, hc]

theorem convergeStep_createOk {avail : String → Except String String} {client : OSClient}
    {t a id0 sn u : String} {st : EndpointStatus}
    (ha : avail t = .ok a) (hg : client.getEndpoints st.serviceID t = .ok [])
    (hc : client.createEndpoint
      { name := sn, serviceID := st.serviceID, availability := a, url := u } = .ok id0)
    (spec : List (String × String)) :
    convergeStep avail client sn spec t u st =
      ⟨applyEndpointStatus spec t u id0 st,
        [⟨t, RemoteCall.getEndpoints st.serviceID t⟩,
          ⟨t, RemoteCall.createEndpoint
            { name := sn, serviceID := st.serviceID, availability := a, url := u }⟩],
        none⟩ := by
  simp [convergeStep, ha, hg, hc]

theorem convergeStep_sameURL {avail : String → Except String String} {client : OSClient}
    {t a u : String} {e0 : RemoteEndpoint} {st : EndpointStatus}
    (ha : avail t = .ok a) (hg : client.getEndpoints st.serviceID t = .ok [e0])
    (hu : u = e0.url) (sn : String) (spec : List (String × String)) :
    convergeStep avail client sn spec t u st =
      ⟨applyEndpointStatus spec t u e0.id st,
        [⟨t, RemoteCall.getEndpoints st.serviceID t⟩], none⟩ := by
  simp [convergeStep, ha, hg, hu]

theorem convergeStep_updErr {avail : String → Except String String} {client : OSClient}
    {t a u e : String} {e0 : RemoteEndpoint} {st : EndpointStatus}
    (ha : avail t = .ok a) (hg : client.getEndpoints st.serviceID t = .ok [e0])
    (hu : ¬ u = e0.url)
    (hupd : client.updateEndpoint
      { name := e0.name, serviceID := e0.serviceID, availability := a, url := u } e0.id
      = .error e)
    (sn : String) (spec : List (String × String)) :
    convergeStep avail client sn spec t u st =
      ⟨st, [⟨t, RemoteCall.getEndpoints st.serviceID t⟩,
        ⟨t, RemoteCall.updateEndpoint
          { name := e0.name, serviceID := e0.serviceID, availability := a, url := u } e0.id⟩],
        some e⟩ := by
  simp [convergeStep, ha, hg, hu, hupd]

theorem convergeStep_updOk {avail : String → Except String String} {client : OSClient}
    {t a u id0 : String} {e0 : RemoteEndpoint} {st : EndpointStatus}
    (ha : avail t = .ok a) (hg : client.getEndpoints st.serviceID t = .ok [e0])
    (hu : ¬ u = e0.url)
    (hupd : client.updateEndpoint
      { name := e0.name, serviceID := e0.serviceID, availability := a, url := u } e0.id
      = .ok id0)
    (sn : String) (spec : List (String × String)) :
    convergeStep avail client sn spec t u st =
      ⟨applyEndpointStatus spec t u id0 st,
        [⟨t, RemoteCall.getEndpoints st.serviceID t⟩,
          ⟨t, RemoteCall.updateEndpoint
            { name := e0.name, serviceID := e0.serviceID, availability := a, url := u }
            e0.id⟩],
        none⟩ := by
  simp [convergeStep, ha, hg, hu, hupd]

theorem convergeStep_multi {avail : String → Except String String} {client : OSClient}
    {t a : String} {e0 e1 : RemoteEndpoint} {es2 : List RemoteEndpoint} {st : EndpointStatus}
    (ha : avail t = .ok a)
    (hg : client.getEndpoints st.serviceID t = .ok (e0 :: e1 :: es2))
    (sn : String) (spec : List (String × String)) (u : String) :
    convergeStep avail client sn spec t u st =
      ⟨st, [⟨t, RemoteCall.getEndpoints st.serviceID t⟩],
        some ("multiple endpoints registered for service:" ++ sn ++ " type: " ++ t)⟩ := by
  simp [convergeStep, ha, hg]

theorem convergeStep_status_main (avail : String → Except String String) (client : OSClient)
    (sn : String) (spec : List (String × String)) (t u : String) (st : EndpointStatus) :
    (convergeStep avail client sn spec t u st).status.serviceID = st.serviceID
    ∧ (convergeStep avail client sn spec t u st).status.conditions = st.conditions
    ∧ (convergeStep avail client sn spec t u st).status.observedGeneration
        = st.observedGeneration
    ∧ ((convergeStep avail client sn spec t u st).err.isSome = true →
        (convergeStep avail client sn spec t u st).status = st)
    ∧ (∀ t0, t ≠ t0 →
        lookupKey t0 (convergeStep avail client sn spec t u st).status.endpointIDs
          = lookupKey t0 st.endpointIDs ∧
        findEndpoint t0 (convergeStep avail client sn spec t u st).status.endpoints
          = findEndpoint t0 st.endpoints)
    ∧ (∀ t0, (lookupKey t0
          (convergeStep avail client sn spec t u st).status.endpointIDs).isSome = true →
        (lookupKey t0 spec).isSome = true ∨ (lookupKey t0 st.endpointIDs).isSome = true)
    ∧ (∀ c ∈ (convergeStep avail client sn spec t u st).calls,
        c.endpointType = t ∧ c.call.isDelete = false) := by
  cases ha : avail t with
  | error e =>
    rw [convergeStep_availErr ha]
    exact ⟨rfl, rfl, rfl, fun _ => rfl, fun t0 _ => ⟨rfl, rfl⟩, fun t0 h => Or.inr h,
      fun c hc => absurd hc (List.not_mem_nil c)⟩
  | ok a =>
    cases hg : client.getEndpoints st.serviceID t with
    | error e =>
      rw [convergeStep_getErr ha hg]
      refine ⟨rfl, rfl, rfl, fun _ => rfl, fun t0 _ => ⟨rfl, rfl⟩, fun t0 h => Or.inr h,
        fun c hc => ?_⟩
      rw [List.mem_singleton] at hc
      subst hc
      exact ⟨rfl, rfl⟩
    | ok es =>
      cases es with
      | nil =>
        cases hc : client.createEndpoint
            { name := sn, serviceID := st.serviceID, availability := a, url := u } with
        | error e =>
          rw [convergeStep_createErr ha hg hc]
          refine ⟨rfl, rfl, rfl, fun _ => rfl, fun t0 _ => ⟨rfl, rfl⟩, fun t0 h => Or.inr h,
            fun c hcc => ?_⟩
          rcases List.mem_cons.mp hcc with h | h
          · subst h
            exact ⟨rfl, rfl⟩
          · rw [List.mem_singleton] at h
            subst h
            exact ⟨rfl, rfl⟩
        | ok id0 =>
          rw [convergeStep_createOk ha hg hc]
          refine ⟨applyEndpointStatus_serviceID spec t u id0 st,
            applyEndpointStatus_conditions spec t u id0 st,
            applyEndpointStatus_observedGeneration spec t u id0 st,
            fun h => by simp at h,
            fun t0 hkt => ⟨lookupKey_applyEndpointStatus_ne hkt spec u id0 st,
              findEndpoint_applyEndpointStatus_ne hkt spec u id0 st⟩,
            fun t0 h => lookupKey_applyEndpointStatus_isSome h,
            fun c hcc => ?_⟩
          rcases List.mem_cons.mp hcc with h | h
          · subst h
            exact ⟨rfl, rfl⟩
          · rw [List.mem_singleton] at h
            subst h
            exact ⟨rfl, rfl⟩
      | cons e0 tail =>
        cases tail with
        | nil =>
          by_cases hu : u = e0.url
          · rw [convergeStep_sameURL ha hg hu]
            refine ⟨applyEndpointStatus_serviceID spec t u e0.id st,
              applyEndpointStatus_conditions spec t u e0.id st,
              applyEndpointStatus_observedGeneration spec t u e0.id st,
              fun h => by simp at h,
              fun t0 hkt => ⟨lookupKey_applyEndpointStatus_ne hkt spec u e0.id st,
                findEndpoint_applyEndpointStatus_ne hkt spec u e0.id st⟩,
              fun t0 h => lookupKey_applyEndpointStatus_isSome h,
              fun c hcc => ?_⟩
            rw [List.mem_singleton] at hcc
            subst hcc
            exact ⟨rfl, rfl⟩
          · cases hupd : client.updateEndpoint
                { name := e0.name, serviceID := e0.serviceID,
                  availability := a, url := u } e0.id with
            | error e =>
              rw [convergeStep_updErr ha hg hu hupd]
              refine ⟨rfl, rfl, rfl, fun _ => rfl, fun t0 _ => ⟨rfl, rfl⟩,
                fun t0 h => Or.inr h, fun c hcc => ?_⟩
              rcases List.mem_cons.mp hcc with h | h
              · subst h
                exact ⟨rfl, rfl⟩
              · rw [List.mem_singleton] at h
                subst h
                exact ⟨rfl, rfl⟩
            | ok id0 =>
              rw [convergeStep_updOk ha hg hu hupd]
              refine ⟨applyEndpointStatus_serviceID spec t u id0 st,
                applyEndpointStatus_conditions spec t u id0 st,
                applyEndpointStatus_observedGeneration spec t u id0 st,
                fun h => by simp at h,
                fun t0 hkt => ⟨lookupKey_applyEndpointStatus_ne hkt spec u id0 st,
                  findEndpoint_applyEndpointStatus_ne hkt spec u id0 st⟩,
                fun t0 h => lookupKey_applyEndpointStatus_isSome h,
                fun c hcc => ?_⟩
              rcases List.mem_cons.mp hcc with h | h
              · subst h
                exact ⟨rfl, rfl⟩
              · rw [List.mem_singleton] at h
                subst h
                exact ⟨rfl, rfl⟩
        | cons e1 tail2 =>
          rw [convergeStep_multi ha hg]
          refine ⟨rfl, rfl, rfl, fun _ => rfl, fun t0 _ => ⟨rfl, rfl⟩, fun t0 h => Or.inr h,
            fun c hcc => ?_⟩
          rw [List.mem_singleton] at hcc
          subst hcc
          exact ⟨rfl, rfl⟩


/-! Lemmas: unfolding equations for the converge pass. -/

theorem convergeLoop_nil (avail : String → Except String String) (client : OSClient)
    (sn : String) (spec : List (String × String)) (st : EndpointStatus)
    (c0 : List LoggedCall) : convergeLoop avail client sn spec [] st c0 = ⟨st, c0, none⟩ := rfl

theorem convergeLoop_cons_err {avail : String → Except String String} {client : OSClient}
    {sn : String} {spec : List (String × String)} {t u : String} {st : EndpointStatus}
    {e : String} (he : (convergeStep avail client sn spec t u st).err = some e)
    (rest : List (String × String)) (c0 : List LoggedCall) :
    convergeLoop avail client sn spec ((t, u) :: rest) st c0 =
      ⟨(convergeStep avail client sn spec t u st).status,
        c0 ++ (convergeStep avail client sn spec t u st).calls, some e⟩ := by
  simp [convergeLoop, he]

theorem convergeLoop_cons_ok {avail : String → Except String String} {client : OSClient}
    {sn : String} {spec : List (String × String)} {t u : String} {st : EndpointStatus}
    (he : (convergeStep avail client sn spec t u st).err = none)
    (rest : List (String × String)) (c0 : List LoggedCall) :
    convergeLoop avail client sn spec ((t, u) :: rest) st c0 =
      convergeLoop avail client sn spec rest
        (convergeStep avail client sn spec t u st).status
        (c0 ++ (convergeStep avail client sn spec t u st).calls) := by
  simp [convergeLoop, he]

/-! Lemmas: structure of the converge pass. -/

theorem convergeLoop_basic (avail : String → Except String String) (client : OSClient)
    (sn : String) (spec : List (String × String)) :
    ∀ (l : List (String × String)) (st : EndpointStatus) (c0 : List LoggedCall),
    (convergeLoop avail client sn spec l st c0).status.serviceID = st.serviceID ∧
    (convergeLoop avail client sn spec l st c0).status.conditions = st.conditions ∧
    (convergeLoop avail client sn spec l st c0).status.observedGeneration
      = st.observedGeneration ∧
    (∀ c ∈ (convergeLoop avail client sn spec l st c0).calls,
      c ∈ c0 ∨ ((∃ p ∈ l, c.endpointType = p.1) ∧ c.call.isDelete = false)) := by
  intro l
  induction l with
  | nil =>
    intro st c0
    rw [convergeLoop_nil]
    exact ⟨rfl, rfl, rfl, fun c hc => Or.inl hc⟩
  | cons p rest ih =>
    intro st c0
    obtain ⟨t, u⟩ := p
    obtain ⟨hs1, hs2, hs3, _, _, _, htag⟩ :=
      convergeStep_status_main avail client sn spec t u st
    cases hstep : (convergeStep avail client sn spec t u st).err with
    | some e =>
      rw [convergeLoop_cons_err hstep]
      refine ⟨hs1, hs2, hs3, fun c hc => ?_⟩
      rcases List.mem_append.mp hc with h | h
      · exact Or.inl h
      · obtain ⟨he, hd⟩ := htag c h
        exact Or.inr ⟨⟨(t, u), List.mem_cons_self _ _, he⟩, hd⟩
    | none =>
      rw [convergeLoop_cons_ok hstep]
      obtain ⟨ih1, ih2, ih3, ih4⟩ := ih (convergeStep avail client sn spec t u st).status
        (c0 ++ (convergeStep avail client sn spec t u st).calls)
      refine ⟨ih1.trans hs1, ih2.trans hs2, ih3.trans hs3, fun c hc => ?_⟩
      rcases ih4 c hc with h | h
      · rcases List.mem_append.mp h with h1 | h1
        · exact Or.inl h1
        · obtain ⟨he, hd⟩ := htag c h1
          exact Or.inr ⟨⟨(t, u), List.mem_cons_self _ _, he⟩, hd⟩
      · obtain ⟨⟨q, hq, he⟩, hd⟩ := h
        exact Or.inr ⟨⟨q, List.mem_cons_of_mem _ hq, he⟩, hd⟩

theorem convergeLoop_untouched {t0 : String} (avail : String → Except String String)
    (client : OSClient) (sn : String) (spec : List (String × String)) :
    ∀ (l : List (String × String)) (st : EndpointStatus) (c0 : List LoggedCall),
    (∀ p ∈ l, p.1 ≠ t0) →
    lookupKey t0 (convergeLoop avail client sn spec l st c0).status.endpointIDs
      = lookupKey t0 st.endpointIDs ∧
    findEndpoint t0 (convergeLoop avail client sn spec l st c0).status.endpoints
      = findEndpoint t0 st.endpoints := by
  intro l
  induction l with
  | nil =>
    intro st c0 _
    rw [convergeLoop_nil]
    exact ⟨rfl, rfl⟩
  | cons p rest ih =>
    intro st c0 h
    obtain ⟨t, u⟩ := p
    have hkt : t ≠ t0 := h (t, u) (List.mem_cons_self _ _)
    obtain ⟨_, _, _, _, hframe, _, _⟩ := convergeStep_status_main avail client sn spec t u st
    obtain ⟨hf1, hf2⟩ := hframe t0 hkt
    cases hstep : (convergeStep avail client sn spec t u st).err with
    | some e =>
      rw [convergeLoop_cons_err hstep]
      exact ⟨hf1, hf2⟩
    | none =>
      rw [convergeLoop_cons_ok hstep]
      obtain ⟨ih1, ih2⟩ := ih (convergeStep avail client sn spec t u st).status
        (c0 ++ (convergeStep avail client sn spec t u st).calls)
        (fun q hq => h q (List.mem_cons_of_mem _ hq))
      exact ⟨ih1.trans hf1, ih2.trans hf2⟩

theorem convergeLoop_ids (avail : String → Except String String) (client : OSClient)
    (sn : String) (spec : List (String × String)) :
    ∀ (l : List (String × String)) (st : EndpointStatus) (c0 : List LoggedCall) (t0 : String),
    (lookupKey t0 (convergeLoop avail client sn spec l st c0).status.endpointIDs).isSome
      = true →
    (lookupKey t0 spec).isSome = true ∨ (lookupKey t0 st.endpointIDs).isSome = true := by
  intro l
  induction l with
  | nil =>
    intro st c0 t0 h
    rw [convergeLoop_nil] at h
    exact Or.inr h
  | cons p rest ih =>
    intro st c0 t0 h
    obtain ⟨t, u⟩ := p
    obtain ⟨_, _, _, _, _, hids, _⟩ := convergeStep_status_main avail client sn spec t u st
    cases hstep : (convergeStep avail client sn spec t u st).err with
    | some e =>
      rw [convergeLoop_cons_err hstep] at h
      exact hids t0 h
    | none =>
      rw [convergeLoop_cons_ok hstep] at h
      rcases ih (convergeStep avail client sn spec t u st).status
        (c0 ++ (convergeStep avail client sn spec t u st).calls) t0 h with h1 | h1
      · exact Or.inl h1
      · exact hids t0 h1

theorem convergeLoop_append_err {avail : String → Except String String} {client : OSClient}
    {sn : String} {spec : List (String × String)} :
    ∀ {l1 : List (String × String)} {st : EndpointStatus} {c0 : List LoggedCall} {e : String},
    (convergeLoop avail client sn spec l1 st c0).err = some e →
    ∀ l2, convergeLoop avail client sn spec (l1 ++ l2) st c0
      = convergeLoop avail client sn spec l1 st c0 := by
  intro l1
  induction l1 with
  | nil =>
    intro st c0 e h l2
    rw [convergeLoop_nil] at h
    cases h
  | cons p rest ih =>
    intro st c0 e h l2
    obtain ⟨t, u⟩ := p
    cases hstep : (convergeStep avail client sn spec t u st).err with
    | some e2 =>
      rw [List.cons_append, convergeLoop_cons_err hstep, convergeLoop_cons_err hstep]
    | none =>
      rw [convergeLoop_cons_ok hstep] at h
      rw [List.cons_append, convergeLoop_cons_ok hstep, convergeLoop_cons_ok hstep]
      exact ih h l2

theorem convergeLoop_append_ok {avail : String → Except String String} {client : OSClient}
    {sn : String} {spec : List (String × String)} :
    ∀ {l1 : List (String × String)} {st : EndpointStatus} {c0 : List LoggedCall},
    (convergeLoop avail client sn spec l1 st c0).err = none →
    ∀ l2, convergeLoop avail client sn spec (l1 ++ l2) st c0
      = convergeLoop avail client sn spec l2
          (convergeLoop avail client sn spec l1 st c0).status
          (convergeLoop avail client sn spec l1 st c0).calls := by
  intro l1
  induction l1 with
  | nil =>
    intro st c0 _ l2
    rw [List.nil_append, convergeLoop_nil]
  | cons p rest ih =>
    intro st c0 h l2
    obtain ⟨t, u⟩ := p
    cases hstep : (convergeStep avail client sn spec t u st).err with
    | some e2 =>
      rw [convergeLoop_cons_err hstep] at h
      cases h
    | none =>
      rw [convergeLoop_cons_ok hstep] at h
      rw [List.cons_append, convergeLoop_cons_ok hstep, convergeLoop_cons_ok hstep]
      exact ih h l2

theorem convergeLoop_ok_iff (avail : String → Except String String) (client : OSClient)
    (sn : String) (spec : List (String × String)) (sid : String) :
    ∀ (l : List (String × String)) (st : EndpointStatus) (c0 : List LoggedCall),
    st.serviceID = sid →
    ((convergeLoop avail client sn spec l st c0).err = none ↔
      ∀ p ∈ l, convergeStepOk avail client sn sid p.1 p.2 = true) := by
  intro l
  induction l with
  | nil =>
    intro st c0 _
    rw [convergeLoop_nil]
    simp
  | cons p rest ih =>
    intro st c0 hsid
    obtain ⟨t, u⟩ := p
    obtain ⟨hcalls, hok⟩ := convergeStep_calls_ok avail client sn spec t u st
    rw [hsid] at hok
    cases hstep : (convergeStep avail client sn spec t u st).err with
    | some e =>
      rw [convergeLoop_cons_err hstep]
      constructor
      · intro h
        cases h
      · intro h
        exfalso
        have := hok.mpr (h (t, u) (List.mem_cons_self _ _))
        rw [hstep] at this
        cases this
    | none =>
      rw [convergeLoop_cons_ok hstep]
      have hsid2 : (convergeStep avail client sn spec t u st).status.serviceID = sid :=
        (convergeStep_status_main avail client sn spec t u st).1.trans hsid
      rw [ih _ _ hsid2]
      constructor
      · intro h q hq
        rcases List.mem_cons.mp hq with h1 | h1
        · subst h1
          exact hok.mp hstep
        · exact h q h1
      · intro h q hq
        exact h q (List.mem_cons_of_mem _ hq)

theorem convergeLoop_calls_flatMap (avail : String → Except String String) (client : OSClient)
    (sn : String) (spec : List (String × String)) (sid : String) :
    ∀ (l : List (String × String)) (st : EndpointStatus) (c0 : List LoggedCall),
    st.serviceID = sid →
    (∀ p ∈ l, convergeStepOk avail client sn sid p.1 p.2 = true) →
    (convergeLoop avail client sn spec l st c0).calls
      = c0 ++ l.flatMap (fun p => convergeStepCalls avail client sn sid p.1 p.2) := by
  intro l
  induction l with
  | nil =>
    intro st c0 _ _
    rw [convergeLoop_nil]
    simp
  | cons p rest ih =>
    intro st c0 hsid hall
    obtain ⟨t, u⟩ := p
    obtain ⟨hcalls, hok⟩ := convergeStep_calls_ok avail client sn spec t u st
    rw [hsid] at hcalls hok
    have hstep : (convergeStep avail client sn spec t u st).err = none :=
      hok.mpr (hall (t, u) (List.mem_cons_self _ _))
    rw [convergeLoop_cons_ok hstep]
    have hsid2 : (convergeStep avail client sn spec t u st).status.serviceID = sid :=
      (convergeStep_status_main avail client sn spec t u st).1.trans hsid
    rw [ih _ _ hsid2 (fun q hq => hall q (List.mem_cons_of_mem _ hq)), hcalls]
    simp [List.flatMap_cons, List.append_assoc]

theorem convergeLoop_no_mutating (avail : String → Except String String) (client : OSClient)
    (sn : String) (spec : List (String × String)) (sid : String) :
    ∀ (l : List (String × String)) (st : EndpointStatus) (c0 : List LoggedCall),
    st.serviceID = sid →
    (∀ p ∈ l, ∃ e0 : RemoteEndpoint,
      client.getEndpoints sid p.1 = .ok [e0] ∧ e0.url = p.2) →
    (∀ c ∈ c0, c.call.isMutating = false) →
    ∀ c ∈ (convergeLoop avail client sn spec l st c0).calls, c.call.isMutating = false := by
  intro l
  induction l with
  | nil =>
    intro st c0 _ _ h0 c hc
    rw [convergeLoop_nil] at hc
    exact h0 c hc
  | cons p rest ih =>
    intro st c0 hsid hremote h0
    obtain ⟨t, u⟩ := p
    obtain ⟨e0, hg, hurl⟩ := hremote (t, u) (List.mem_cons_self _ _)
    rw [← hsid] at hg
    cases ha : avail t with
    | error e =>
      have hstep : (convergeStep avail client sn spec t u st).err = some e := by
        rw [convergeStep_availErr ha]
      intro c hc
      rw [convergeLoop_cons_err hstep] at hc
      rw [convergeStep_availErr ha] at hc
      rcases List.mem_append.mp hc with h | h
      · exact h0 c h
      · cases h
    | ok a =>
      have hstep := convergeStep_sameURL ha hg hurl.symm sn spec
      have herr : (convergeStep avail client sn spec t u st).err = none := by
        rw [hstep]
      intro c hc
      rw [convergeLoop_cons_ok herr] at hc
      refine ih _ _ ((convergeStep_status_main avail client sn spec t u st).1.trans hsid)
        (fun q hq => hremote q (List.mem_cons_of_mem _ hq)) ?_ c hc
      intro c2 hc2
      rcases List.mem_append.mp hc2 with h | h
      · exact h0 c2 h
      · rw [hstep] at h
        rw [List.mem_singleton] at h
        subst h
        rfl

/-! Lemmas: permutations of the spec enumeration, call-log shape. -/

theorem lookupKey_perm {m m' : List (String × String)} (hperm : m.Perm m') :
    (m.map Prod.fst).Nodup → ∀ k, lookupKey k m = lookupKey k m' := by
  induction hperm with
  | nil =>
    intro _ k
    rfl
  | cons p h ih =>
    intro hnd k
    obtain ⟨k1, v1⟩ := p
    simp only [List.map_cons, List.nodup_cons] at hnd
    by_cases h1 : k1 = k
    · simp [lookupKey, h1]
    · simp [lookupKey, h1, ih hnd.2 k]
  | swap x y l =>
    intro hnd k
    obtain ⟨k1, v1⟩ := y
    obtain ⟨k2, v2⟩ := x
    simp only [List.map_cons, List.nodup_cons, List.mem_cons] at hnd
    have h12 : k1 ≠ k2 := fun h => hnd.1 (Or.inl h)
    by_cases ha : k1 = k
    · subst ha
      have h21 : ¬ k2 = k1 := fun hh => h12 hh.symm
      simp [lookupKey, h21]
    · by_cases hb : k2 = k
      · subst hb
        simp [lookupKey, ha]
      · simp [lookupKey, ha, hb]
  | trans hab hbc ih1 ih2 =>
    intro hnd k
    have hnd2 := ((hab.map Prod.fst).nodup_iff).mp hnd
    exact (ih1 hnd k).trans (ih2 hnd2 k)

theorem retireLoop_congr {spec spec2 : List (String × String)}
    (h : ∀ k, lookupKey k spec = lookupKey k spec2)
    (avail : String → Except String String) (client : OSClient) (sn : String) :
    ∀ (l : List (String × String)) (st : EndpointStatus) (c0 : List LoggedCall),
    retireLoop avail client sn spec l st c0 = retireLoop avail client sn spec2 l st c0 := by
  intro l
  induction l with
  | nil =>
    intro st c0
    rfl
  | cons p rest ih =>
    intro st c0
    obtain ⟨t, v⟩ := p
    cases hl : (lookupKey t spec2).isSome with
    | true =>
      rw [retireLoop_cons_skip (by rw [h t]; exact hl),
        retireLoop_cons_skip hl]
      exact ih st c0
    | false =>
      have hl1 : (lookupKey t spec).isSome = false := by
        rw [h t]
        exact hl
      cases ha : avail t with
      | error e =>
        rw [retireLoop_cons_availErr hl1 ha, retireLoop_cons_availErr hl ha]
      | ok a =>
        cases hd : client.deleteEndpoint
            { name := sn, serviceID := st.serviceID, availability := a, url := "" } with
        | error e =>
          rw [retireLoop_cons_delErr hl1 ha hd, retireLoop_cons_delErr hl ha hd]
        | ok u =>
          rw [retireLoop_cons_delOk hl1 ha hd, retireLoop_cons_delOk hl ha hd]
          exact ih _ _

theorem perm_flatMap {α β : Type} {l l2 : List α} (h : l.Perm l2) (f : α → List β) :
    (l.flatMap f).Perm (l2.flatMap f) := by
  induction h with
  | nil => rfl
  | cons x h ih =>
    simp only [List.flatMap_cons]
    exact ih.append_left (f x)
  | swap x y l =>
    simp only [List.flatMap_cons, ← List.append_assoc]
    exact (@List.perm_append_comm _ (f y) (f x)).append_right _
  | trans hab hbc ih1 ih2 =>
    exact ih1.trans ih2

theorem not_createOrUpdate_of_isDelete {rc : RemoteCall} (h : rc.isDelete = true) :
    rc.isCreateOrUpdate = false := by
  cases rc <;> simp_all [RemoteCall.isDelete, RemoteCall.isCreateOrUpdate]

theorem deletesBeforeCU_no_delete {l : List LoggedCall}
    (h : ∀ c ∈ l, c.call.isDelete = false) : deletesBeforeCU l = true := by
  induction l with
  | nil => rfl
  | cons c rest ih =>
    simp only [deletesBeforeCU]
    split
    · rw [List.all_eq_true]
      intro x hx
      rw [h x (List.mem_cons_of_mem _ hx)]
      rfl
    · exact ih fun x hx => h x (List.mem_cons_of_mem _ hx)

theorem deletesBeforeCU_append {l1 l2 : List LoggedCall}
    (h1 : ∀ c ∈ l1, c.call.isCreateOrUpdate = false)
    (h2 : ∀ c ∈ l2, c.call.isDelete = false) : deletesBeforeCU (l1 ++ l2) = true := by
  induction l1 with
  | nil =>
    rw [List.nil_append]
    exact deletesBeforeCU_no_delete h2
  | cons c rest ih =>
    rw [List.cons_append]
    simp only [deletesBeforeCU]
    rw [if_neg (by rw [h1 c (List.mem_cons_self _ _)]; simp)]
    exact ih fun x hx => h1 x (List.mem_cons_of_mem _ hx)

/-! Lemmas: unfolding equations for `reconcileEndpoints`. -/

theorem reconcileEndpoints_retireErr {avail : String → Except String String}
    {client : OSClient} {sn : String} {spec : List (String × String)}
    {st : EndpointStatus} {e : String}
    (h : (retireLoop avail client sn spec st.endpointIDs st []).err = some e) :
    reconcileEndpoints avail client sn spec st
      = retireLoop avail client sn spec st.endpointIDs st [] := by
  simp [reconcileEndpoints, h]

theorem reconcileEndpoints_retireOk {avail : String → Except String String}
    {client : OSClient} {sn : String} {spec : List (String × String)}
    {st : EndpointStatus}
    (h : (retireLoop avail client sn spec st.endpointIDs st []).err = none) :
    reconcileEndpoints avail client sn spec st
      = convergeLoop avail client sn spec spec
          (retireLoop avail client sn spec st.endpointIDs st []).status
          (retireLoop avail client sn spec st.endpointIDs st []).calls := by
  simp [reconcileEndpoints, h]

/-! Lemmas: remaining auxiliary facts. -/

theorem eq_none_of_isSome_false {α : Type} {o : Option α} (h : o.isSome = false) :
    o = none := by
  cases o with
  | none => rfl
  | some v => cases h

theorem exists_mem_of_lookupKey_isSome {t : String} {m : List (String × String)}
    (h : (lookupKey t m).isSome = true) : ∃ v, (t, v) ∈ m := by
  induction m with
  | nil => cases h
  | cons p rest ih =>
    obtain ⟨k1, v1⟩ := p
    by_cases h1 : k1 = t
    · subst h1
      exact ⟨v1, List.mem_cons_self _ _⟩
    · rw [lookupKey, if_neg h1] at h
      obtain ⟨v, hv⟩ := ih h
      exact ⟨v, List.mem_cons_of_mem _ hv⟩

theorem retireLoop_subset {spec : List (String × String)}
    (avail : String → Except String String) (client : OSClient) (sn : String) :
    ∀ (l : List (String × String)) (st : EndpointStatus) (c0 : List LoggedCall),
    (keysOf st.endpointIDs).Nodup →
    (∀ t, (lookupKey t st.endpointIDs).isSome = true →
      (lookupKey t spec).isSome = true ∨ ∃ v, (t, v) ∈ l) →
    (retireLoop avail client sn spec l st c0).err = none →
    ∀ t, (lookupKey t (retireLoop avail client sn spec l st c0).status.endpointIDs).isSome
        = true →
      (lookupKey t spec).isSome = true := by
  intro l
  induction l with
  | nil =>
    intro st c0 _ hpre _ t hs
    rw [retireLoop_nil] at hs
    rcases hpre t hs with h | ⟨v, hv⟩
    · exact h
    · cases hv
  | cons p rest ih =>
    intro st c0 hndk hpre herr t0 hs
    obtain ⟨k, v⟩ := p
    cases hl : (lookupKey k spec).isSome with
    | true =>
      rw [retireLoop_cons_skip hl] at herr hs
      refine ih st c0 hndk (fun t2 ht2 => ?_) herr t0 hs
      rcases hpre t2 ht2 with h | ⟨v0, hv0⟩
      · exact Or.inl h
      · rcases List.mem_cons.mp hv0 with h1 | h1
        · have : t2 = k := by
            have := congrArg Prod.fst h1
            simpa using this
          rw [this]
          exact Or.inl hl
        · exact Or.inr ⟨v0, h1⟩
    | false =>
      cases ha : avail k with
      | error e =>
        rw [retireLoop_cons_availErr hl ha] at herr
        cases herr
      | ok a =>
        cases hd : client.deleteEndpoint
            { name := sn, serviceID := st.serviceID, availability := a, url := "" } with
        | error e =>
          rw [retireLoop_cons_delErr hl ha hd] at herr
          cases herr
        | ok u =>
          rw [retireLoop_cons_delOk hl ha hd] at herr hs
          refine ih _ _ (nodup_keysOf_eraseKey hndk) (fun t2 ht2 => ?_) herr t0 hs
          by_cases hk : t2 = k
          · subst hk
            have h2 : (lookupKey t2 (eraseKey t2 st.endpointIDs)).isSome = true := ht2
            rw [lookupKey_eraseKey_self hndk] at h2
            cases h2
          · have h2 : (lookupKey t2 (eraseKey k st.endpointIDs)).isSome = true := ht2
            rw [lookupKey_eraseKey_ne (fun hh => hk hh.symm) st.endpointIDs] at h2
            rcases hpre t2 h2 with h | ⟨v0, hv0⟩
            · exact Or.inl h
            · rcases List.mem_cons.mp hv0 with h1 | h1
              · exfalso
                apply hk
                have := congrArg Prod.fst h1
                simpa using this
              · exact Or.inr ⟨v0, h1⟩

theorem convergeStepCalls_no_delete (avail : String → Except String String)
    (client : OSClient) (sn sid t u : String) :
    ∀ c ∈ convergeStepCalls avail client sn sid t u, c.call.isDelete = false := by
  intro c hc
  cases ha : avail t with
  | error e =>
    simp [convergeStepCalls, ha] at hc
  | ok a =>
    cases hg : client.getEndpoints sid t with
    | error e =>
      simp [convergeStepCalls, ha, hg] at hc
      subst hc
      rfl
    | ok es =>
      cases es with
      | nil =>
        simp [convergeStepCalls, ha, hg] at hc
        rcases hc with rfl | rfl <;> rfl
      | cons e0 tail =>
        cases tail with
        | nil =>
          by_cases hu : u = e0.url
          · simp [convergeStepCalls, ha, hg, hu] at hc
            subst hc
            rfl
          · simp [convergeStepCalls, ha, hg, hu] at hc
            rcases hc with rfl | rfl <;> rfl
        | cons e1 tail2 =>
          simp [convergeStepCalls, ha, hg] at hc
          subst hc
          rfl

/-- C1: for every instance whose recorded state already matches the declared
spec — for each endpoint type in `EndpointSpec` the remote registry holds
exactly one matching endpoint whose URL equals the desired URL, and
`EndpointIDs` has exactly the spec's keys — a reconcile pass of the endpoint
sync engine issues no CreateEndpoint, UpdateEndpoint or DeleteEndpoint
calls. -/
theorem idempotent_pass_no_mutating_calls
    (avail : String → Except String String) (client : OSClient) (sn : String)
    (spec : List (String × String)) (st : EndpointStatus)
    (hids : ∀ t, (lookupKey t st.endpointIDs).isSome = (lookupKey t spec).isSome)
    (hremote : ∀ p ∈ spec, ∃ e0 : RemoteEndpoint,
      client.getEndpoints st.serviceID p.1 = .ok [e0] ∧ e0.url = p.2) :
    ∀ c ∈ (reconcileEndpoints avail client sn spec st).calls,
      c.call.isMutating = false := by
  have hret : retireLoop avail client sn spec st.endpointIDs st [] = ⟨st, [], none⟩ := by
    apply retireLoop_all_in_spec
    intro p hp
    rw [← hids p.1]
    exact lookupKey_isSome_of_mem (v := p.2) hp
  rw [reconcileEndpoints_retireOk (by rw [hret])]
  rw [hret]
  exact convergeLoop_no_mutating avail client sn spec st.serviceID spec st [] rfl hremote
    (fun c hc => absurd hc (List.not_mem_nil c))

/-- C1 witness: a concrete matched instance issues only the read-only
registry queries. -/
theorem idempotent_pass_no_mutating_calls_witness :
    ((reconcileEndpoints fxAvail fxOneClient "nova" [("public", "u1")] fxSt1).calls.all
      fun c => !c.call.isMutating) = true := by
  rw [List.all_eq_true]
  intro c hc
  have h := idempotent_pass_no_mutating_calls fxAvail fxOneClient "nova" [("public", "u1")] fxSt1
    (by
      intro t
      by_cases h : "public" = t <;> simp [fxSt1, fxSt0, lookupKey, h])
    (by
      intro p hp
      rw [List.mem_singleton] at hp
      subst hp
      exact ⟨fxMatched, rfl, rfl⟩)
    c hc
  simp [h]

/-- C9: after every fully successful sync pass, the key set of
`EndpointIDs` is a subset of the key set of `EndpointSpec`. -/
theorem endpoint_ids_subset_of_spec
    (avail : String → Except String String) (client : OSClient) (sn : String)
    (spec : List (String × String)) (st : EndpointStatus)
    (hndk : (keysOf st.endpointIDs).Nodup)
    (herr : (reconcileEndpoints avail client sn spec st).err = none) :
    ∀ t, (lookupKey t
        (reconcileEndpoints avail client sn spec st).status.endpointIDs).isSome = true →
      (lookupKey t spec).isSome = true := by
  cases hr : (retireLoop avail client sn spec st.endpointIDs st []).err with
  | some e =>
    rw [reconcileEndpoints_retireErr hr, hr] at herr
    cases herr
  | none =>
    rw [reconcileEndpoints_retireOk hr]
    intro t hsome
    rcases convergeLoop_ids avail client sn spec spec _ _ t hsome with h | h
    · exact h
    · exact retireLoop_subset avail client sn st.endpointIDs st [] hndk
        (fun t2 ht2 => Or.inr (exists_mem_of_lookupKey_isSome ht2)) hr t h

/-- C9 witness: a concrete successful pass leaves `EndpointIDs` keyed only
by spec keys. -/
theorem endpoint_ids_subset_of_spec_witness :
    ((reconcileEndpoints fxAvail fxOneClient "nova" [("public", "u1")]
        fxSt1).status.endpointIDs.all
      fun p => (lookupKey p.1 [("public", "u1")]).isSome) = true := by
  rw [List.all_eq_true]
  intro p hp
  exact endpoint_ids_subset_of_spec fxAvail fxOneClient "nova" [("public", "u1")] fxSt1
    (by simp [fxSt1, fxSt0, keysOf]) (by decide) p.1
    (lookupKey_isSome_of_mem (v := p.2) hp)

/-- C3: for every endpoint type whose remote registry query returns more
than one matching endpoint, the sync engine surfaces an error and makes no
CreateEndpoint, UpdateEndpoint or DeleteEndpoint call for that type, and
both `EndpointIDs[type]` and the corresponding `Endpoints` entry are left
unchanged. -/
theorem ambiguous_type_is_safe
    (avail : String → Except String String) (client : OSClient) (sn : String)
    (spec : List (String × String)) (st : EndpointStatus) (t u : String)
    (es : List RemoteEndpoint)
    (hnd : (spec.map Prod.fst).Nodup)
    (hmem : (t, u) ∈ spec)
    (hget : client.getEndpoints st.serviceID t = .ok es)
    (hlen : 2 ≤ es.length) :
    (reconcileEndpoints avail client sn spec st).err.isSome = true ∧
    (∀ c ∈ (reconcileEndpoints avail client sn spec st).calls,
      c.endpointType = t → c.call.isMutating = false) ∧
    lookupKey t (reconcileEndpoints avail client sn spec st).status.endpointIDs
      = lookupKey t st.endpointIDs ∧
    findEndpoint t (reconcileEndpoints avail client sn spec st).status.endpoints
      = findEndpoint t st.endpoints := by
  have ht : (lookupKey t spec).isSome = true := lookupKey_isSome_of_mem hmem
  obtain ⟨pre, post, hsplit⟩ := List.append_of_mem hmem
  subst hsplit
  rw [List.map_append, List.nodup_append] at hnd
  have hpre : ∀ q ∈ pre, q.1 ≠ t := by
    intro q hq he
    exact hnd.2.2 (List.mem_map_of_mem Prod.fst hq) (by rw [he]; simp)
  obtain ⟨hret_ids, hret_eps⟩ := retireLoop_frame ht avail client sn st.endpointIDs st []
  have hret_tag : ∀ c ∈ (retireLoop avail client sn (pre ++ (t, u) :: post)
      st.endpointIDs st []).calls, c.endpointType = t → c.call.isMutating = false := by
    intro c hc hct
    rcases (retireLoop_basic avail client sn _ st.endpointIDs st []).2.2.2 c hc
      with h | ⟨_, hlk⟩
    · cases h
    · rw [hct, ht] at hlk
      cases hlk
  cases hr : (retireLoop avail client sn (pre ++ (t, u) :: post) st.endpointIDs st []).err with
  | some e =>
    rw [reconcileEndpoints_retireErr hr]
    exact ⟨by rw [hr]; rfl, hret_tag, hret_ids, hret_eps⟩
  | none =>
    rw [reconcileEndpoints_retireOk hr]
    have hsidR : (retireLoop avail client sn (pre ++ (t, u) :: post)
        st.endpointIDs st []).status.serviceID = st.serviceID :=
      (retireLoop_basic avail client sn _ st.endpointIDs st []).1
    have hPtag : ∀ c ∈ (convergeLoop avail client sn (pre ++ (t, u) :: post) pre
        (retireLoop avail client sn (pre ++ (t, u) :: post) st.endpointIDs st []).status
        (retireLoop avail client sn (pre ++ (t, u) :: post) st.endpointIDs st []).calls).calls,
        c.endpointType = t → c.call.isMutating = false := by
      intro c hc hct
      rcases (convergeLoop_basic avail client sn _ pre _ _).2.2.2 c hc
        with h | ⟨⟨q, hq, he⟩, _⟩
      · exact hret_tag c h hct
      · refine absurd ?_ (hpre q hq)
        rw [← he]
        exact hct
    obtain ⟨hPids, hPeps⟩ := convergeLoop_untouched avail client sn (pre ++ (t, u) :: post)
      pre (retireLoop avail client sn (pre ++ (t, u) :: post) st.endpointIDs st []).status
      (retireLoop avail client sn (pre ++ (t, u) :: post) st.endpointIDs st []).calls hpre
    cases hp : (convergeLoop avail client sn (pre ++ (t, u) :: post) pre
        (retireLoop avail client sn (pre ++ (t, u) :: post) st.endpointIDs st []).status
        (retireLoop avail client sn (pre ++ (t, u) :: post) st.endpointIDs st []).calls).err with
    | some e2 =>
      rw [convergeLoop_append_err hp]
      exact ⟨by rw [hp]; rfl, hPtag, hPids.trans hret_ids, hPeps.trans hret_eps⟩
    | none =>
      rw [convergeLoop_append_ok hp]
      have hsidP : (convergeLoop avail client sn (pre ++ (t, u) :: post) pre
          (retireLoop avail client sn (pre ++ (t, u) :: post) st.endpointIDs st []).status
          (retireLoop avail client sn (pre ++ (t, u) :: post)
            st.endpointIDs st []).calls).status.serviceID = st.serviceID :=
        (convergeLoop_basic avail client sn _ pre _ _).1.trans hsidR
      have hgetP : client.getEndpoints (convergeLoop avail client sn
          (pre ++ (t, u) :: post) pre
          (retireLoop avail client sn (pre ++ (t, u) :: post) st.endpointIDs st []).status
          (retireLoop avail client sn (pre ++ (t, u) :: post)
            st.endpointIDs st []).calls).status.serviceID t = .ok es := by
        rw [hsidP]
        exact hget
      cases ha : avail t with
      | error e3 =>
        have hstep := convergeStep_availErr ha client sn (pre ++ (t, u) :: post) u
          (convergeLoop avail client sn (pre ++ (t, u) :: post) pre
            (retireLoop avail client sn (pre ++ (t, u) :: post) st.endpointIDs st []).status
            (retireLoop avail client sn (pre ++ (t, u) :: post)
              st.endpointIDs st []).calls).status
        have herrstep : (convergeStep avail client sn (pre ++ (t, u) :: post) t u
            (convergeLoop avail client sn (pre ++ (t, u) :: post) pre
              (retireLoop avail client sn (pre ++ (t, u) :: post) st.endpointIDs st []).status
              (retireLoop avail client sn (pre ++ (t, u) :: post)
                st.endpointIDs st []).calls).status).err = some e3 := by
          rw [hstep]
        rw [convergeLoop_cons_err herrstep, hstep]
        refine ⟨rfl, ?_, hPids.trans hret_ids, hPeps.trans hret_eps⟩
        intro c hc hct
        rw [List.append_nil] at hc
        exact hPtag c hc hct
      | ok a =>
        obtain ⟨e0, tail0, rfl⟩ : ∃ e0 tail0, es = e0 :: tail0 := by
          cases es with
          | nil => simp at hlen
          | cons e0 tail0 => exact ⟨e0, tail0, rfl⟩
        obtain ⟨e1, tail1, rfl⟩ : ∃ e1 tail1, tail0 = e1 :: tail1 := by
          cases tail0 with
          | nil => simp at hlen
          | cons e1 tail1 => exact ⟨e1, tail1, rfl⟩
        have hstep := convergeStep_multi ha hgetP sn (pre ++ (t, u) :: post) u
        have herrstep : (convergeStep avail client sn (pre ++ (t, u) :: post) t u
            (convergeLoop avail client sn (pre ++ (t, u) :: post) pre
              (retireLoop avail client sn (pre ++ (t, u) :: post) st.endpointIDs st []).status
              (retireLoop avail client sn (pre ++ (t, u) :: post)
                st.endpointIDs st []).calls).status).err
            = some ("multiple endpoints registered for service:" ++ sn ++ " type: " ++ t) := by
          rw [hstep]
        rw [convergeLoop_cons_err herrstep, hstep]
        refine ⟨rfl, ?_, hPids.trans hret_ids, hPeps.trans hret_eps⟩
        intro c hc hct
        rcases List.mem_append.mp hc with h | h
        · exact hPtag c h hct
        · rw [List.mem_singleton] at h
          subst h
          rfl

/-- C3 witness: with two remote endpoints registered for the queried type,
the concrete pass errors and leaves that type untouched. -/
theorem ambiguous_type_is_safe_witness :
    (reconcileEndpoints fxAvail fxMultiClient "nova" [("public", "u1")] fxSt1).err.isSome
      = true ∧
    (∀ c ∈ (reconcileEndpoints fxAvail fxMultiClient "nova" [("public", "u1")] fxSt1).calls,
      c.endpointType = "public" → c.call.isMutating = false) ∧
    lookupKey "public" (reconcileEndpoints fxAvail fxMultiClient "nova" [("public", "u1")]
      fxSt1).status.endpointIDs = lookupKey "public" fxSt1.endpointIDs ∧
    findEndpoint "public" (reconcileEndpoints fxAvail fxMultiClient "nova" [("public", "u1")]
      fxSt1).status.endpoints = findEndpoint "public" fxSt1.endpoints :=
  ambiguous_type_is_safe fxAvail fxMultiClient "nova" [("public", "u1")] fxSt1 "public" "u1"
    [fxMatched, { fxMatched with id := "id2" }]
    (by simp) (by simp) rfl (by decide)

/-- C4: for every endpoint type present as a key of `EndpointIDs` but
absent from `EndpointSpec`, a successful sync pass issues exactly one
remote delete call for that type and removes the type both from
`EndpointIDs` and from the `Endpoints` list; the retire pass runs before
the create/update (converge) pass: no delete call follows a create or
update call in the log. -/
theorem retired_type_deleted_once
    (avail : String → Except String String) (client : OSClient) (sn : String)
    (spec : List (String × String)) (st : EndpointStatus) (t id0 : String)
    (hmem : (t, id0) ∈ st.endpointIDs)
    (hns : (lookupKey t spec).isSome = false)
    (hndk : (keysOf st.endpointIDs).Nodup)
    (hndi : (st.endpoints.map Endpoint.interface).Nodup)
    (herr : (reconcileEndpoints avail client sn spec st).err = none) :
    (reconcileEndpoints avail client sn spec st).calls.countP
        (fun c => decide (c.endpointType = t) && c.call.isDelete) = 1 ∧
    lookupKey t (reconcileEndpoints avail client sn spec st).status.endpointIDs = none ∧
    findEndpoint t (reconcileEndpoints avail client sn spec st).status.endpoints = none ∧
    deletesBeforeCU (reconcileEndpoints avail client sn spec st).calls = true := by
  cases hr : (retireLoop avail client sn spec st.endpointIDs st []).err with
  | some e =>
    rw [reconcileEndpoints_retireErr hr, hr] at herr
    cases herr
  | none =>
    rw [reconcileEndpoints_retireOk hr] at herr ⊢
    obtain ⟨hR1, hR2, hR3⟩ := retireLoop_removes hns avail client sn st.endpointIDs st []
      ⟨id0, hmem⟩ hndk hndk hndi hr
    have hsidR : (retireLoop avail client sn spec st.endpointIDs st []).status.serviceID
        = st.serviceID := (retireLoop_basic avail client sn spec st.endpointIDs st []).1
    have hallok := (convergeLoop_ok_iff avail client sn spec st.serviceID spec _ _ hsidR).mp herr
    have hcalls := convergeLoop_calls_flatMap avail client sn spec st.serviceID spec
      (retireLoop avail client sn spec st.endpointIDs st []).status
      (retireLoop avail client sn spec st.endpointIDs st []).calls hsidR hallok
    have htne : ∀ q ∈ spec, q.1 ≠ t :=
      fun q hq => fst_ne_of_lookupKey_none (eq_none_of_isSome_false hns) hq
    obtain ⟨hU1, hU2⟩ := convergeLoop_untouched avail client sn spec spec
      (retireLoop avail client sn spec st.endpointIDs st []).status
      (retireLoop avail client sn spec st.endpointIDs st []).calls htne
    refine ⟨?_, ?_, ?_, ?_⟩
    · rw [hcalls, List.countP_append]
      have hflat : (spec.flatMap fun p =>
          convergeStepCalls avail client sn st.serviceID p.1 p.2).countP
          (fun c => decide (c.endpointType = t) && c.call.isDelete) = 0 := by
        rw [List.countP_eq_zero]
        intro c hcmem
        rw [List.mem_flatMap] at hcmem
        obtain ⟨q, hq, hcq⟩ := hcmem
        have hd := convergeStepCalls_no_delete avail client sn st.serviceID q.1 q.2 c hcq
        simp [hd]
      rw [hflat, hR3]
      simp
    · rw [hU1, hR1]
    · rw [hU2, hR2]
    · rw [hcalls]
      apply deletesBeforeCU_append
      · intro c hcm
        rcases (retireLoop_basic avail client sn spec st.endpointIDs st []).2.2.2 c hcm
          with h | ⟨hd, _⟩
        · cases h
        · exact not_createOrUpdate_of_isDelete hd
      · intro c hcm
        rw [List.mem_flatMap] at hcm
        obtain ⟨q, hq, hcq⟩ := hcm
        exact convergeStepCalls_no_delete avail client sn st.serviceID q.1 q.2 c hcq

/-- C4 witness: removing the only spec entry retires the recorded type with
exactly one delete call. -/
theorem retired_type_deleted_once_witness :
    (reconcileEndpoints fxAvail fxOneClient "nova" [] fxSt1).calls.countP
        (fun c => decide (c.endpointType = "public") && c.call.isDelete) = 1 ∧
    lookupKey "public" (reconcileEndpoints fxAvail fxOneClient "nova" []
      fxSt1).status.endpointIDs = none ∧
    findEndpoint "public" (reconcileEndpoints fxAvail fxOneClient "nova" []
      fxSt1).status.endpoints = none ∧
    deletesBeforeCU (reconcileEndpoints fxAvail fxOneClient "nova" [] fxSt1).calls = true :=
  retired_type_deleted_once fxAvail fxOneClient "nova" [] fxSt1 "public" "id1"
    (by simp [fxSt1, fxSt0]) rfl (by simp [fxSt1, fxSt0, keysOf])
    (by simp [fxSt1, fxSt0]) (by decide)

/-- C10: if processing a single endpoint type in the converge pass fails,
the sync engine returns immediately: the pass surfaces the error, and for
every endpoint type not yet iterated no remote call is made and neither
its `EndpointIDs` entry nor its `Endpoints` entry is mutated. -/
theorem converge_failure_frames_remaining_types
    (avail : String → Except String String) (client : OSClient) (sn : String)
    (spec1 spec2 : List (String × String)) (st : EndpointStatus)
    (hnd : (((spec1 ++ spec2)).map Prod.fst).Nodup)
    (hret : (retireLoop avail client sn (spec1 ++ spec2) st.endpointIDs st []).err = none)
    (hfail : (convergeLoop avail client sn (spec1 ++ spec2) spec1
        (retireLoop avail client sn (spec1 ++ spec2) st.endpointIDs st []).status
        (retireLoop avail client sn (spec1 ++ spec2) st.endpointIDs st []).calls).err.isSome
      = true) :
    (reconcileEndpoints avail client sn (spec1 ++ spec2) st).err.isSome = true ∧
    ∀ p ∈ spec2,
      (∀ c ∈ (reconcileEndpoints avail client sn (spec1 ++ spec2) st).calls,
        c.endpointType ≠ p.1) ∧
      lookupKey p.1 (reconcileEndpoints avail client sn
          (spec1 ++ spec2) st).status.endpointIDs = lookupKey p.1 st.endpointIDs ∧
      findEndpoint p.1 (reconcileEndpoints avail client sn
          (spec1 ++ spec2) st).status.endpoints = findEndpoint p.1 st.endpoints := by
  rw [reconcileEndpoints_retireOk hret]
  obtain ⟨e, he⟩ := Option.isSome_iff_exists.mp hfail
  rw [convergeLoop_append_err he]
  rw [List.map_append, List.nodup_append] at hnd
  refine ⟨by rw [he]; rfl, ?_⟩
  intro p hp
  have hp1 : ∀ q ∈ spec1, q.1 ≠ p.1 := by
    intro q hq heq
    exact hnd.2.2 (List.mem_map_of_mem Prod.fst hq)
      (heq ▸ List.mem_map_of_mem Prod.fst hp)
  have htp : (lookupKey p.1 (spec1 ++ spec2)).isSome = true :=
    lookupKey_isSome_of_mem (v := p.2) (List.mem_append_right spec1 hp)
  obtain ⟨hRids, hReps⟩ := retireLoop_frame htp avail client sn st.endpointIDs st []
  obtain ⟨hPids, hPeps⟩ := convergeLoop_untouched avail client sn (spec1 ++ spec2) spec1
    (retireLoop avail client sn (spec1 ++ spec2) st.endpointIDs st []).status
    (retireLoop avail client sn (spec1 ++ spec2) st.endpointIDs st []).calls hp1
  refine ⟨?_, hPids.trans hRids, hPeps.trans hReps⟩
  intro c hc hcp
  rcases (convergeLoop_basic avail client sn _ spec1 _ _).2.2.2 c hc
    with h | ⟨⟨q, hq, heq⟩, _⟩
  · rcases (retireLoop_basic avail client sn _ st.endpointIDs st []).2.2.2 c h
      with h0 | ⟨_, hlk⟩
    · cases h0
    · rw [hcp, htp] at hlk
      cases hlk
  · rw [hcp] at heq
    exact hp1 q hq heq.symm

/-- C10 witness: a registry-query failure on the first spec entry leaves
the second spec entry without calls or status mutations. -/
theorem converge_failure_frames_remaining_types_witness :
    (reconcileEndpoints fxAvail fxGetFailClient "nova"
      ([("public", "u1")] ++ [("admin", "u2")]) fxSt0).err.isSome = true ∧
    ∀ p ∈ [("admin", "u2")],
      (∀ c ∈ (reconcileEndpoints fxAvail fxGetFailClient "nova"
          ([("public", "u1")] ++ [("admin", "u2")]) fxSt0).calls,
        c.endpointType ≠ p.1) ∧
      lookupKey p.1 (reconcileEndpoints fxAvail fxGetFailClient "nova"
          ([("public", "u1")] ++ [("admin", "u2")]) fxSt0).status.endpointIDs
        = lookupKey p.1 fxSt0.endpointIDs ∧
      findEndpoint p.1 (reconcileEndpoints fxAvail fxGetFailClient "nova"
          ([("public", "u1")] ++ [("admin", "u2")]) fxSt0).status.endpoints
        = findEndpoint p.1 fxSt0.endpoints :=
  converge_failure_frames_remaining_types fxAvail fxGetFailClient "nova"
    [("public", "u1")] [("admin", "u2")] fxSt0 (by decide) (by decide) (by decide)

/-- C7 counterexample: the sync engine iterates `Spec.Endpoints` with a Go
map `range`, whose enumeration order is arbitrary; two runs on the same
mapping (two enumerations of the same pairs, here related by a swap)
produce different sequences of remote calls, refuting the claimed
determinism of the call sequence. -/
theorem iteration_order_not_deterministic :
    ([("a", "u"), ("b", "v")] : List (String × String)).Perm [("b", "v"), ("a", "u")] ∧
    (reconcileEndpoints fxAvail fxEmptyClient "nova" [("a", "u"), ("b", "v")] fxSt0).calls ≠
    (reconcileEndpoints fxAvail fxEmptyClient "nova" [("b", "v"), ("a", "u")] fxSt0).calls :=
  ⟨List.Perm.swap ("b", "v") ("a", "u") [], by decide⟩

/-- C7 amended: the iteration order over the endpoint-type keys of the
`EndpointSpec` mapping is an arbitrary map enumeration, so two runs of the
sync engine on identical inputs may issue their remote calls in different
sequences; however, for any two enumerations of the same mapping, a run
that completes without error completes without error under the other
enumeration too and issues the same multiset of remote calls (the call
logs are permutations of each other). -/
theorem call_multiset_deterministic
    (avail : String → Except String String) (client : OSClient) (sn : String)
    (spec spec2 : List (String × String)) (st : EndpointStatus)
    (hperm : spec.Perm spec2)
    (hnd : (spec.map Prod.fst).Nodup)
    (hok : (reconcileEndpoints avail client sn spec st).err = none) :
    (reconcileEndpoints avail client sn spec2 st).err = none ∧
    (reconcileEndpoints avail client sn spec st).calls.Perm
      (reconcileEndpoints avail client sn spec2 st).calls := by
  have hlk := lookupKey_perm hperm hnd
  have hcongr := retireLoop_congr hlk avail client sn st.endpointIDs st []
  cases hr : (retireLoop avail client sn spec st.endpointIDs st []).err with
  | some e =>
    rw [reconcileEndpoints_retireErr hr, hr] at hok
    cases hok
  | none =>
    have hr2 : (retireLoop avail client sn spec2 st.endpointIDs st []).err = none := by
      rw [← hcongr]
      exact hr
    rw [reconcileEndpoints_retireOk hr] at hok ⊢
    rw [reconcileEndpoints_retireOk hr2, ← hcongr]
    have hsid : (retireLoop avail client sn spec st.endpointIDs st []).status.serviceID
        = st.serviceID := (retireLoop_basic avail client sn spec st.endpointIDs st []).1
    have hall := (convergeLoop_ok_iff avail client sn spec st.serviceID spec
      (retireLoop avail client sn spec st.endpointIDs st []).status
      (retireLoop avail client sn spec st.endpointIDs st []).calls hsid).mp hok
    have hall2 : ∀ p ∈ spec2, convergeStepOk avail client sn st.serviceID p.1 p.2 = true :=
      fun p hp => hall p (hperm.mem_iff.mpr hp)
    constructor
    · exact (convergeLoop_ok_iff avail client sn spec2 st.serviceID spec2
        (retireLoop avail client sn spec st.endpointIDs st []).status
        (retireLoop avail client sn spec st.endpointIDs st []).calls hsid).mpr hall2
    · rw [convergeLoop_calls_flatMap avail client sn spec st.serviceID spec
        (retireLoop avail client sn spec st.endpointIDs st []).status
        (retireLoop avail client sn spec st.endpointIDs st []).calls hsid hall,
        convergeLoop_calls_flatMap avail client sn spec2 st.serviceID spec2
        (retireLoop avail client sn spec st.endpointIDs st []).status
        (retireLoop avail client sn spec st.endpointIDs st []).calls hsid hall2]
      exact (perm_flatMap hperm fun p =>
        convergeStepCalls avail client sn st.serviceID p.1 p.2).append_left
        (retireLoop avail client sn spec st.endpointIDs st []).calls

/-- C7 amended witness: the two concrete enumerations above log
permutation-equivalent calls. -/
theorem call_multiset_deterministic_witness :
    (reconcileEndpoints fxAvail fxEmptyClient "nova" [("b", "v"), ("a", "u")] fxSt0).err
      = none ∧
    (reconcileEndpoints fxAvail fxEmptyClient "nova" [("a", "u"), ("b", "v")]
      fxSt0).calls.Perm
    (reconcileEndpoints fxAvail fxEmptyClient "nova" [("b", "v"), ("a", "u")] fxSt0).calls :=
  call_multiset_deterministic fxAvail fxEmptyClient "nova"
    [("a", "u"), ("b", "v")] [("b", "v"), ("a", "u")] fxSt0
    (List.Perm.swap ("b", "v") ("a", "u") []) (by decide) (by decide)

/-! Lemmas: the condition collection and the readiness aggregator. -/

theorem findCondition_setCondition_self {c : Condition} {t : String} (hc : c.type = t)
    (cs : List Condition) : findCondition t (setCondition c cs) = some c := by
  induction cs with
  | nil => simp [setCondition, findCondition, hc]
  | cons c1 rest ih =>
    by_cases h1 : c1.type = c.type
    · simp [setCondition, h1, findCondition, hc]
    · have h1t : ¬ c1.type = t := by
        rw [← hc]
        exact h1
      simp only [setCondition, if_neg h1, findCondition] at ih ⊢
      rw [List.find?_cons_of_neg _ (by simp [h1t])]
      exact ih

theorem findCondition_setCondition_ne {c : Condition} {t : String} (hc : ¬ c.type = t)
    (cs : List Condition) : findCondition t (setCondition c cs) = findCondition t cs := by
  induction cs with
  | nil => simp [setCondition, findCondition, hc]
  | cons c1 rest ih =>
    by_cases h1 : c1.type = c.type
    · have h1t : ¬ c1.type = t := by
        rw [h1]
        exact hc
      simp only [setCondition, if_pos h1, findCondition]
      rw [List.find?_cons_of_neg _ (by simp [hc]), List.find?_cons_of_neg _ (by simp [h1t])]
    · simp only [setCondition, if_neg h1, findCondition] at ih ⊢
      by_cases h1t : c1.type = t
      · rw [List.find?_cons_of_pos _ (by simp [h1t]), List.find?_cons_of_pos _ (by simp [h1t])]
      · rw [List.find?_cons_of_neg _ (by simp [h1t]), List.find?_cons_of_neg _ (by simp [h1t])]
        exact ih

theorem allSub_setCondition {c : Condition} (hc : c.type = readyCond)
    (cs : List Condition) :
    allSubConditionIsTrue (setCondition c cs) = allSubConditionIsTrue cs := by
  induction cs with
  | nil => simp [setCondition, allSubConditionIsTrue, hc]
  | cons c1 rest ih =>
    by_cases h1 : c1.type = c.type
    · have h1r : c1.type = readyCond := h1.trans hc
      simp [setCondition, h1, allSubConditionIsTrue, hc, h1r]
    · simp only [setCondition, if_neg h1]
      simp only [allSubConditionIsTrue, List.all_cons] at ih ⊢
      rw [ih]

theorem mem_setCondition_of_ne {c0 c : Condition} (hmem : c0 ∈ cs) (hne : ¬ c0.type = c.type) :
    c0 ∈ setCondition c cs := by
  induction cs with
  | nil => cases hmem
  | cons c1 rest ih =>
    by_cases h1 : c1.type = c.type
    · simp only [setCondition, if_pos h1]
      rcases List.mem_cons.mp hmem with h | h
      · exfalso
        apply hne
        rw [h, h1]
      · exact List.mem_cons_of_mem _ h
    · simp only [setCondition, if_neg h1]
      rcases List.mem_cons.mp hmem with h | h
      · rw [h]
        exact List.mem_cons_self _ _
      · exact List.mem_cons_of_mem _ (ih h)

theorem mirrorCondition_type {target : String} {cs : List Condition} {c : Condition}
    (h : mirrorCondition target cs = some c) : c.type = target := by
  simp only [mirrorCondition] at h
  rw [Option.map_eq_some'] at h
  obtain ⟨a, _, hfa⟩ := h
  rw [← hfa]

theorem mirror_picks {cs : List Condition} (hallf : allSubConditionIsTrue cs = false) :
    ∃ c0, c0 ∈ cs ∧ c0.type ≠ readyCond ∧ c0.status ≠ CondStatus.ctrue ∧
      mirrorCondition readyCond cs = some { c0 with type := readyCond } := by
  have hex : ∃ x ∈ cs, (decide (x.type = readyCond)
      || decide (x.status = CondStatus.ctrue)) = false := by
    rw [allSubConditionIsTrue, List.all_eq_false] at hallf
    obtain ⟨x, hx, hpx⟩ := hallf
    exact ⟨x, hx, by simpa using hpx⟩
  obtain ⟨x, hx, hpx⟩ := hex
  rw [Bool.or_eq_false_iff] at hpx
  have hxt : x.type ≠ readyCond := by simpa using hpx.1
  have hxs : x.status ≠ CondStatus.ctrue := by simpa using hpx.2
  have hxsub : x ∈ cs.filter fun c => decide (c.type ≠ readyCond) := by
    rw [List.mem_filter]
    exact ⟨hx, by simpa using hxt⟩
  cases h1 : (cs.filter fun c => decide (c.type ≠ readyCond)).find?
      (fun c => decide (c.status = CondStatus.cfalse)
        && decide (c.severity = Severity.error)) with
  | some c1 =>
    have hc1mem := List.mem_of_find?_eq_some h1
    have hc1p := List.find?_some h1
    rw [Bool.and_eq_true] at hc1p
    have hc1s : c1.status = CondStatus.cfalse := by simpa using hc1p.1
    rw [List.mem_filter] at hc1mem
    refine ⟨c1, hc1mem.1, by simpa using hc1mem.2, by simp [hc1s], ?_⟩
    simp only [mirrorCondition, h1]
    rfl
  | none =>
    cases h2 : (cs.filter fun c => decide (c.type ≠ readyCond)).find?
        (fun c => decide (c.status = CondStatus.cfalse)) with
    | some c2 =>
      have hc2mem := List.mem_of_find?_eq_some h2
      have hc2p := List.find?_some h2
      have hc2s : c2.status = CondStatus.cfalse := by simpa using hc2p
      rw [List.mem_filter] at hc2mem
      refine ⟨c2, hc2mem.1, by simpa using hc2mem.2, by simp [hc2s], ?_⟩
      simp only [mirrorCondition, h1, h2]
      rfl
    | none =>
      cases h3 : (cs.filter fun c => decide (c.type ≠ readyCond)).find?
          (fun c => decide (c.status = CondStatus.cunknown)) with
      | some c3 =>
        have hc3mem := List.mem_of_find?_eq_some h3
        have hc3p := List.find?_some h3
        have hc3s : c3.status = CondStatus.cunknown := by simpa using hc3p
        rw [List.mem_filter] at hc3mem
        refine ⟨c3, hc3mem.1, by simpa using hc3mem.2, by simp [hc3s], ?_⟩
        simp only [mirrorCondition, h1, h2, h3]
        rfl
      | none =>
        exfalso
        cases hs : x.status with
        | ctrue => exact hxs hs
        | cfalse =>
          have := List.find?_eq_none.mp h2 x hxsub
          simp [hs] at this
        | cunknown =>
          have := List.find?_eq_none.mp h3 x hxsub
          simp [hs] at this

theorem findCondition_finalize_ne {t : String} (h : ¬ t = readyCond)
    (cs : List Condition) :
    findCondition t (finalizeConditions cs) = findCondition t cs := by
  have hne : ∀ c : Condition, c.type = readyCond → ¬ c.type = t :=
    fun c hc he => h (he.symm.trans hc)
  by_cases hall : allSubConditionIsTrue cs = true
  · have hfin : finalizeConditions cs = markTrue readyCond readyMessage cs := by
      simp [finalizeConditions, hall]
    rw [hfin]
    simp only [markTrue]
    exact findCondition_setCondition_ne (hne (trueCondition readyCond readyMessage) rfl) cs
  · have hallf : allSubConditionIsTrue cs = false := by
      cases hq : allSubConditionIsTrue cs
      · rfl
      · exact absurd hq hall
    have hfin : finalizeConditions cs = setConditionOpt
        (mirrorCondition readyCond (markUnknown readyCond initReason readyInitMessage cs))
        (markUnknown readyCond initReason readyInitMessage cs) := by
      simp [finalizeConditions, hallf]
    rw [hfin]
    cases hm : mirrorCondition readyCond
        (markUnknown readyCond initReason readyInitMessage cs) with
    | none =>
      simp only [setConditionOpt, markUnknown]
      exact findCondition_setCondition_ne
        (hne (unknownCondition readyCond initReason readyInitMessage) rfl) cs
    | some c =>
      simp only [setConditionOpt]
      rw [findCondition_setCondition_ne (hne c (mirrorCondition_type hm))]
      simp only [markUnknown]
      exact findCondition_setCondition_ne
        (hne (unknownCondition readyCond initReason readyInitMessage) rfl) cs

theorem finalize_ready (cs0 : List Condition) :
    ((findCondition readyCond (finalizeConditions cs0)).map Condition.status
        = some CondStatus.ctrue
      ↔ allSubConditionIsTrue (finalizeConditions cs0) = true) ∧
    (allSubConditionIsTrue (finalizeConditions cs0) = false →
      ∃ c0 ∈ finalizeConditions cs0, c0.type ≠ readyCond ∧ c0.status ≠ CondStatus.ctrue ∧
        findCondition readyCond (finalizeConditions cs0)
          = some { c0 with type := readyCond }) := by
  by_cases hall : allSubConditionIsTrue cs0 = true
  · have hfin : finalizeConditions cs0 = markTrue readyCond readyMessage cs0 := by
      simp [finalizeConditions, hall]
    rw [hfin]
    have hsub : allSubConditionIsTrue (markTrue readyCond readyMessage cs0)
        = allSubConditionIsTrue cs0 := allSub_setCondition rfl cs0
    have hfind : findCondition readyCond (markTrue readyCond readyMessage cs0)
        = some (trueCondition readyCond readyMessage) :=
      findCondition_setCondition_self (by rfl) cs0
    constructor
    · rw [hfind, hsub, hall]
      simp [trueCondition]
    · intro hf
      rw [hsub, hall] at hf
      cases hf
  · have hallf : allSubConditionIsTrue cs0 = false := by
      cases hq : allSubConditionIsTrue cs0
      · rfl
      · exact absurd hq hall
    have hfin : finalizeConditions cs0 = setConditionOpt
        (mirrorCondition readyCond (markUnknown readyCond initReason readyInitMessage cs0))
        (markUnknown readyCond initReason readyInitMessage cs0) := by
      simp [finalizeConditions, hallf]
    have hsub1 : allSubConditionIsTrue
        (markUnknown readyCond initReason readyInitMessage cs0)
        = allSubConditionIsTrue cs0 := allSub_setCondition rfl cs0
    obtain ⟨c0, hc0mem, hc0t, hc0s, hc0m⟩ :=
      @mirror_picks (markUnknown readyCond initReason readyInitMessage cs0)
        (by rw [hsub1]; exact hallf)
    rw [hfin, hc0m]
    simp only [setConditionOpt]
    have hfind : findCondition readyCond
        (setCondition { c0 with type := readyCond }
          (markUnknown readyCond initReason readyInitMessage cs0))
        = some { c0 with type := readyCond } :=
      findCondition_setCondition_self (by rfl) _
    have hsub2 : allSubConditionIsTrue
        (setCondition { c0 with type := readyCond }
          (markUnknown readyCond initReason readyInitMessage cs0))
        = allSubConditionIsTrue cs0 := (allSub_setCondition rfl _).trans hsub1
    constructor
    · rw [hfind, hsub2, hallf]
      simp [hc0s]
    · intro _
      refine ⟨c0, ?_, hc0t, hc0s, hfind⟩
      exact mem_setCondition_of_ne hc0mem hc0t

/-- C2: on every exit of a reconcile pass, the aggregate `Ready` condition
is true if and only if all sub-conditions are true; otherwise `Ready` is
recomputed by mirroring a most relevant non-ready sub-condition (its
status, reason, severity and message are copied from a non-true
sub-condition of the final collection). -/
theorem ready_condition_aggregation (env : Env) (inst : KeystoneEndpoint) :
    ((findCondition readyCond (Reconcile env inst).inst.status.conditions).map
        Condition.status = some CondStatus.ctrue
      ↔ allSubConditionIsTrue (Reconcile env inst).inst.status.conditions = true) ∧
    (allSubConditionIsTrue (Reconcile env inst).inst.status.conditions = false →
      ∃ c0 ∈ (Reconcile env inst).inst.status.conditions,
        c0.type ≠ readyCond ∧ c0.status ≠ CondStatus.ctrue ∧
        findCondition readyCond (Reconcile env inst).inst.status.conditions
          = some { c0 with type := readyCond }) := by
  have h : (Reconcile env inst).inst.status.conditions
      = finalizeConditions (reconcileBody env inst).inst.status.conditions := rfl
  rw [h]
  exact finalize_ready (reconcileBody env inst).inst.status.conditions

/-! Lemmas: delete paths and finalizer cleanup. -/

theorem removeFinalizer_snd (f : String) (fins : List String) :
    (removeFinalizer f fins).2 = fins.filter fun x => decide (x ≠ f) := by
  by_cases h : f ∈ fins
  · simp [removeFinalizer, h]
  · rw [removeFinalizer, if_neg h]
    refine ((List.filter_eq_self.mpr ?_).symm)
    intro x hx
    have hxf : x ≠ f := fun he => h (he ▸ hx)
    simp [hxf]

theorem deleteLoop_ok (avail : String → Except String String) (client : OSClient)
    (serviceName serviceID : String)
    (hdel : ∀ ep, client.deleteEndpoint ep = Except.ok ()) :
    ∀ l : List (String × String), (∀ p ∈ l, ∃ a, avail p.1 = Except.ok a) →
      ∀ c0, deleteLoop avail client serviceName serviceID l c0 =
        (c0 ++ l.map (fun p => ⟨p.1, RemoteCall.deleteEndpoint
          { name := serviceName, serviceID := serviceID,
            availability := availOf avail p.1, url := "" }⟩), none) := by
  intro l
  induction l with
  | nil =>
    intro _ c0
    simp [deleteLoop]
  | cons p rest ih =>
    intro havail c0
    obtain ⟨a, ha⟩ := havail p (List.mem_cons_self p rest)
    have hrest : ∀ q ∈ rest, ∃ b, avail q.1 = Except.ok b :=
      fun q hq => havail q (List.mem_cons_of_mem p hq)
    cases p with
    | mk t u =>
      simp only at ha
      have hAO : availOf avail t = a := by simp [availOf, ha]
      simp only [deleteLoop, ha, hdel]
      rw [ih hrest]
      simp [hAO, List.append_assoc]

theorem reconcileDelete_ok (env : Env) (inst : KeystoneEndpoint) (client : OSClient)
    (api : KeystoneAPI) (svc : KeystoneService)
    (hsvc : env.keystoneServiceRes = GetRes.found svc)
    (havail : ∀ p ∈ inst.specEndpoints, ∃ a, env.avail p.1 = Except.ok a)
    (hdel : ∀ ep, client.deleteEndpoint ep = Except.ok ()) :
    reconcileDelete env inst (some client) (some api) =
      ⟨{ inst with
           status := { inst.status with endpointIDs := [] },
           finalizers := inst.finalizers.filter fun x => decide (x ≠ helperFinalizer) },
        GetRes.found { api with
          finalizers := api.finalizers.filter fun x => decide (x ≠ endpointMarker inst.name) },
        GetRes.found { svc with
          finalizers := svc.finalizers.filter fun x => decide (x ≠ endpointMarker inst.name) },
        0, none,
        inst.specEndpoints.map fun p =>
          ⟨p.1, RemoteCall.deleteEndpoint
            { name := inst.serviceName, serviceID := inst.status.serviceID,
              availability := availOf env.avail p.1, url := "" }⟩⟩ := by
  have hd := deleteLoop_ok env.avail client inst.serviceName inst.status.serviceID hdel
    inst.specEndpoints havail []
  simp [reconcileDelete, hd, hsvc, removeFinalizer_snd]

/-- C5: if deletion is requested for an instance while its `EndpointIDs`
map is empty and the identity-API dependency is absent, the reconcile
pass makes zero remote identity-service calls and performs
finalizer-marker cleanup only: it returns no error and no requeue, the
per-instance marker is removed from the service registration, the
instance's own finalizer is removed, and the rest of the recorded status
is left as it was. -/
theorem delete_short_circuit (env : Env) (inst : KeystoneEndpoint) (svc : KeystoneService)
    (hterm : inst.terminating = true)
    (hconds : inst.status.conditions.isEmpty = false)
    (hids : inst.status.endpointIDs = [])
    (hapi : env.keystoneAPIRes = GetRes.notFound)
    (hsvc : env.keystoneServiceRes = GetRes.found svc) :
    (Reconcile env inst).calls = [] ∧
    (Reconcile env inst).err = none ∧
    (Reconcile env inst).requeueAfter = 0 ∧
    (Reconcile env inst).api = GetRes.notFound ∧
    (Reconcile env inst).svc = GetRes.found { svc with
      finalizers := svc.finalizers.filter fun x => decide (x ≠ endpointMarker inst.name) } ∧
    (Reconcile env inst).inst.finalizers
      = inst.finalizers.filter (fun x => decide (x ≠ helperFinalizer)) ∧
    (Reconcile env inst).inst.status.endpointIDs = [] ∧
    (Reconcile env inst).inst.status.endpoints = inst.status.endpoints ∧
    (Reconcile env inst).inst.status.serviceID = inst.status.serviceID := by
  refine ⟨?_, ?_, ?_, ?_, ?_, ?_, ?_, ?_, ?_⟩ <;>
    simp [Reconcile, reconcileBody, reconcileDelete, hconds, hterm, hids, hapi, hsvc,
      removeFinalizer_snd]

/-- C5 witness: a concrete terminating instance with empty `EndpointIDs`
and an absent KeystoneAPI is cleaned up without any remote call. -/
theorem delete_short_circuit_witness :
    (Reconcile fxEnvNoAPI fxInstDel).calls = [] ∧
    (Reconcile fxEnvNoAPI fxInstDel).err = none ∧
    (Reconcile fxEnvNoAPI fxInstDel).requeueAfter = 0 ∧
    (Reconcile fxEnvNoAPI fxInstDel).api = GetRes.notFound ∧
    (Reconcile fxEnvNoAPI fxInstDel).svc = GetRes.found { fxSvc with
      finalizers := fxSvc.finalizers.filter fun x =>
        decide (x ≠ endpointMarker fxInstDel.name) } ∧
    (Reconcile fxEnvNoAPI fxInstDel).inst.finalizers
      = fxInstDel.finalizers.filter (fun x => decide (x ≠ helperFinalizer)) ∧
    (Reconcile fxEnvNoAPI fxInstDel).inst.status.endpointIDs = [] ∧
    (Reconcile fxEnvNoAPI fxInstDel).inst.status.endpoints = fxInstDel.status.endpoints ∧
    (Reconcile fxEnvNoAPI fxInstDel).inst.status.serviceID = fxInstDel.status.serviceID :=
  delete_short_circuit fxEnvNoAPI fxInstDel fxSvc rfl rfl rfl rfl rfl

/-- C6: on the full delete path with a usable remote client (every
availability resolves and every remote delete succeeds), a remote delete
is attempted for every endpoint type declared in `EndpointSpec` — even
types with no recorded identifier in `EndpointIDs` — then `EndpointIDs`
is cleared, the per-instance finalizer marker is removed from the service
registration and from the identity-API registration, and the instance's
own finalizer is removed. -/
theorem full_delete_path (env : Env) (inst : KeystoneEndpoint) (api : KeystoneAPI)
    (svc : KeystoneService)
    (hconds : inst.status.conditions.isEmpty = false)
    (hterm : inst.terminating = true)
    (hids : inst.status.endpointIDs.isEmpty = false)
    (hapi : env.keystoneAPIRes = GetRes.found api)
    (hapiT : api.terminating = false)
    (hapiR : api.ready = true)
    (hadm : env.adminClientRes = AdminClientRes.ok)
    (hsvc : env.keystoneServiceRes = GetRes.found svc)
    (havail : ∀ p ∈ inst.specEndpoints, ∃ a, env.avail p.1 = Except.ok a)
    (hdel : ∀ ep, env.client.deleteEndpoint ep = Except.ok ()) :
    (Reconcile env inst).calls = inst.specEndpoints.map (fun p =>
        ⟨p.1, RemoteCall.deleteEndpoint
          { name := inst.serviceName, serviceID := inst.status.serviceID,
            availability := availOf env.avail p.1, url := "" }⟩) ∧
    (Reconcile env inst).err = none ∧
    (Reconcile env inst).requeueAfter = 0 ∧
    (Reconcile env inst).inst.status.endpointIDs = [] ∧
    (Reconcile env inst).inst.finalizers
      = inst.finalizers.filter (fun x => decide (x ≠ helperFinalizer)) ∧
    (Reconcile env inst).svc = GetRes.found { svc with
      finalizers := svc.finalizers.filter fun x => decide (x ≠ endpointMarker inst.name) } ∧
    (Reconcile env inst).api = GetRes.found { api with
      finalizers := api.finalizers.filter fun x => decide (x ≠ endpointMarker inst.name) } := by
  have hbody : reconcileBody env inst = reconcileDelete env
      (markInstTrue adminServiceClientReadyCond adminServiceClientReadyMessage
        (markInstTrue keystoneAPIReadyCond keystoneAPIReadyMessage
          { inst with status := { inst.status with observedGeneration := inst.generation } }))
      (some env.client) (some api) := by
    simp [reconcileBody, markInstTrue, hconds, hterm, hids, hapi, hapiT, hapiR, hadm]
  have hb := hbody.trans (reconcileDelete_ok env
    (markInstTrue adminServiceClientReadyCond adminServiceClientReadyMessage
      (markInstTrue keystoneAPIReadyCond keystoneAPIReadyMessage
        { inst with status := { inst.status with observedGeneration := inst.generation } }))
    env.client api svc hsvc havail hdel)
  refine ⟨?_, ?_, ?_, ?_, ?_, ?_, ?_⟩ <;>
    simp [Reconcile, hb, markInstTrue, markTrue]

/-- C6 witness: a concrete terminating instance with one declared
endpoint type gets exactly that one remote delete, its ids cleared and
every finalizer marker removed. -/
theorem full_delete_path_witness :
    (Reconcile fxEnv fxInstTerm).calls = fxInstTerm.specEndpoints.map (fun p =>
        ⟨p.1, RemoteCall.deleteEndpoint
          { name := fxInstTerm.serviceName, serviceID := fxInstTerm.status.serviceID,
            availability := availOf fxEnv.avail p.1, url := "" }⟩) ∧
    (Reconcile fxEnv fxInstTerm).err = none ∧
    (Reconcile fxEnv fxInstTerm).requeueAfter = 0 ∧
    (Reconcile fxEnv fxInstTerm).inst.status.endpointIDs = [] ∧
    (Reconcile fxEnv fxInstTerm).inst.finalizers
      = fxInstTerm.finalizers.filter (fun x => decide (x ≠ helperFinalizer)) ∧
    (Reconcile fxEnv fxInstTerm).svc = GetRes.found { fxSvc with
      finalizers := fxSvc.finalizers.filter fun x =>
        decide (x ≠ endpointMarker fxInstTerm.name) } ∧
    (Reconcile fxEnv fxInstTerm).api = GetRes.found { fxAPI with
      finalizers := fxAPI.finalizers.filter fun x =>
        decide (x ≠ endpointMarker fxInstTerm.name) } :=
  full_delete_path fxEnv fxInstTerm fxAPI fxSvc rfl rfl rfl rfl rfl rfl rfl rfl
    (fun p _ => ⟨"av-" ++ p.1, rfl⟩) (fun _ => rfl)

/-- C8 counterexample: with the service registration absent (NotFound)
during a non-deleting pass, the pass does return a scheduled retry with a
nil error, but it records no condition describing the absence: the
`KeystoneServiceReady` condition after the pass is still the untouched
`Init` placeholder with an empty message, exactly as before the pass. -/
theorem service_absence_unreported :
    (Reconcile fxEnvNoSvc fxInst).requeueAfter = 5 ∧
    (Reconcile fxEnvNoSvc fxInst).err = none ∧
    findCondition keystoneServiceReadyCond (Reconcile fxEnvNoSvc fxInst).inst.status.conditions
      = some (unknownCondition keystoneServiceReadyCond initReason "") ∧
    findCondition keystoneServiceReadyCond fxInst.status.conditions
      = some (unknownCondition keystoneServiceReadyCond initReason "") := by
  decide

/-- C8 amended: when the identity-API registration is absent (NotFound)
during a non-deleting pass, the pass returns a scheduled retry with a nil
error and records a warning condition describing the absence; when the
service registration is absent (NotFound) during a non-deleting pass that
reaches the service lookup, the pass also returns a scheduled retry with
a nil error, but it records no condition about the service: the
`KeystoneServiceReady` condition is left exactly as it was. -/
theorem dependency_absent_requeue (env : Env) (inst : KeystoneEndpoint) (api : KeystoneAPI)
    (hconds : inst.status.conditions.isEmpty = false)
    (hterm : inst.terminating = false)
    (hfin : helperFinalizer ∈ inst.finalizers) :
    (env.keystoneAPIRes = GetRes.notFound →
      (Reconcile env inst).requeueAfter = 5 ∧ (Reconcile env inst).err = none ∧
      findCondition keystoneAPIReadyCond (Reconcile env inst).inst.status.conditions =
        some (falseCondition keystoneAPIReadyCond errorReason Severity.warning
          keystoneAPIReadyNotFoundMessage)) ∧
    (env.keystoneAPIRes = GetRes.found api → api.ready = true →
      env.adminClientRes = AdminClientRes.ok → env.keystoneServiceRes = GetRes.notFound →
      (Reconcile env inst).requeueAfter = 5 ∧ (Reconcile env inst).err = none ∧
      findCondition keystoneServiceReadyCond (Reconcile env inst).inst.status.conditions =
        findCondition keystoneServiceReadyCond inst.status.conditions) := by
  have hadd : (addFinalizer helperFinalizer inst.finalizers).1 = false := by
    simp [addFinalizer, hfin]
  have hwrap : ∀ e i, (Reconcile e i).inst.status.conditions
      = finalizeConditions (reconcileBody e i).inst.status.conditions := fun e i => rfl
  constructor
  · intro hapi
    have hbody : reconcileBody env inst =
        ⟨setInstCondition
            (falseCondition keystoneAPIReadyCond errorReason Severity.warning
              keystoneAPIReadyNotFoundMessage)
            { inst with status := { inst.status with observedGeneration := inst.generation } },
          GetRes.notFound, env.keystoneServiceRes, 5, none, []⟩ := by
      simp [reconcileBody, hconds, hterm, hadd, hapi]
    refine ⟨?_, ?_, ?_⟩
    · show (reconcileBody env inst).requeueAfter = 5
      rw [hbody]
    · show (reconcileBody env inst).err = none
      rw [hbody]
    · rw [hwrap, hbody]
      rw [findCondition_finalize_ne (by decide)]
      simp only [setInstCondition]
      exact findCondition_setCondition_self (by rfl) _
  · intro hapi hapiR hadm hsvc
    have hbody : reconcileBody env inst =
        ⟨markInstTrue adminServiceClientReadyCond adminServiceClientReadyMessage
            (markInstTrue keystoneAPIReadyCond keystoneAPIReadyMessage
              { inst with status := { inst.status with observedGeneration := inst.generation } }),
          GetRes.found api, GetRes.notFound, 5, none, []⟩ := by
      simp [reconcileBody, reconcileNormal, markInstTrue, hconds, hterm, hadd, hapi, hapiR,
        hadm, hsvc]
    refine ⟨?_, ?_, ?_⟩
    · show (reconcileBody env inst).requeueAfter = 5
      rw [hbody]
    · show (reconcileBody env inst).err = none
      rw [hbody]
    · rw [hwrap, hbody]
      rw [findCondition_finalize_ne (by decide)]
      simp only [markInstTrue, markTrue]
      rw [findCondition_setCondition_ne (by decide)]
      rw [findCondition_setCondition_ne (by decide)]

/-- C8 amended witness: the concrete fixture, run once against an absent
KeystoneAPI and once against an absent KeystoneService, shows both
retry-with-nil-error behaviours and both condition behaviours. -/
theorem dependency_absent_requeue_witness :
    ((fxEnvNoAPI.keystoneAPIRes = GetRes.notFound →
      (Reconcile fxEnvNoAPI fxInst).requeueAfter = 5 ∧
      (Reconcile fxEnvNoAPI fxInst).err = none ∧
      findCondition keystoneAPIReadyCond (Reconcile fxEnvNoAPI fxInst).inst.status.conditions =
        some (falseCondition keystoneAPIReadyCond errorReason Severity.warning
          keystoneAPIReadyNotFoundMessage)) ∧
    (fxEnvNoAPI.keystoneAPIRes = GetRes.found fxAPI → fxAPI.ready = true →
      fxEnvNoAPI.adminClientRes = AdminClientRes.ok →
      fxEnvNoAPI.keystoneServiceRes = GetRes.notFound →
      (Reconcile fxEnvNoAPI fxInst).requeueAfter = 5 ∧
      (Reconcile fxEnvNoAPI fxInst).err = none ∧
      findCondition keystoneServiceReadyCond
          (Reconcile fxEnvNoAPI fxInst).inst.status.conditions =
        findCondition keystoneServiceReadyCond fxInst.status.conditions)) ∧
    ((fxEnvNoSvc.keystoneAPIRes = GetRes.notFound →
      (Reconcile fxEnvNoSvc fxInst).requeueAfter = 5 ∧
      (Reconcile fxEnvNoSvc fxInst).err = none ∧
      findCondition keystoneAPIReadyCond (Reconcile fxEnvNoSvc fxInst).inst.status.conditions =
        some (falseCondition keystoneAPIReadyCond errorReason Severity.warning
          keystoneAPIReadyNotFoundMessage)) ∧
    (fxEnvNoSvc.keystoneAPIRes = GetRes.found fxAPI → fxAPI.ready = true →
      fxEnvNoSvc.adminClientRes = AdminClientRes.ok →
      fxEnvNoSvc.keystoneServiceRes = GetRes.notFound →
      (Reconcile fxEnvNoSvc fxInst).requeueAfter = 5 ∧
      (Reconcile fxEnvNoSvc fxInst).err = none ∧
      findCondition keystoneServiceReadyCond
          (Reconcile fxEnvNoSvc fxInst).inst.status.conditions =
        findCondition keystoneServiceReadyCond fxInst.status.conditions)) :=
  ⟨dependency_absent_requeue fxEnvNoAPI fxInst fxAPI rfl rfl (List.mem_cons_self _ _),
   dependency_absent_requeue fxEnvNoSvc fxInst fxAPI rfl rfl (List.mem_cons_self _ _)⟩
